import Mathlib

/-!
RSFS: a shallow embedding of the in-memory file system of `api.c`.

The C globals (`data_blocks`, `data_bitmap`, `inode_bitmap`, `inodes`,
`bytes_track`, `open_file_table`, `root_dir`) become the fields of one record
`FS` that every API function receives and returns.  C arrays are lists whose
length is the declared array size; every array access is bounds-checked and an
access outside the array, a dereference of a NULL or freed `dir_entry`, or a
`memcpy` that leaves its source or destination buffer ends the run with
`Res.fault` (undefined behaviour in C).  An `int` expression has its mathematical
value when that lies in the 32-bit range of `int`, and is a fault otherwise (signed
overflow).  The program is run by one thread.  The mutex `entry_mutex` of every
open-file slot is part of the state: `pthread_mutex_lock` on a mutex that is held
never returns (`Res.blocked`).  The mutexes `mutex_for_fs_stat` and
`bytes_track_mutex` are locked and unlocked in pairs inside one function and are not
represented, and neither are the locks inside the helper files.

`def.h` and the helper files (`dir.c`, `inode.c`, `open_file_table.c`,
`data_block.c`) are not among the sources.  The sizes and flag values that
`def.h` defines are the fields of `Consts`; the helpers are modelled from the
specification and marked as such.
-/

namespace RSFS

/-! ## Outcomes -/

/-- Outcome of running a piece of the program: a value, undefined behaviour
(`fault`), a loop that used up its iteration budget (`timeout`), or a call of
`pthread_mutex_lock` that waits for a mutex nobody will release (`blocked`). -/
inductive Res (α : Type) where
  | ok (a : α)
  | fault
  | timeout
  | blocked
  deriving DecidableEq, Repr

/-- Sequencing of two program fragments. -/
def Res.bind {α β : Type} (r : Res α) (f : α → Res β) : Res β :=
  match r with
  | .ok a => f a
  | .fault => .fault
  | .timeout => .timeout
  | .blocked => .blocked

instance : Monad Res where
  pure := Res.ok
  bind := Res.bind

/-- The read `a[i]` of a C array: a fault outside `0 .. length-1`. -/
def rd {α : Type} (a : List α) (i : Int) : Res α :=
  if i < 0 then .fault
  else
    match a[i.toNat]? with
    | some v => .ok v
    | none => .fault

/-- The assignment `a[i] = v` of a C array: a fault outside `0 .. length-1`. -/
def wr {α : Type} (a : List α) (i : Int) (v : α) : Res (List α) :=
  if 0 ≤ i ∧ i.toNat < a.length then .ok (a.set i.toNat v) else .fault

/-- The C library function `abs` on `int`. -/
def c_abs (x : Int) : Int := if x < 0 then -x else x

/-- Least value of the C type `int`. -/
def INT_MIN : Int := -2147483648

/-- Greatest value of the C type `int`. -/
def INT_MAX : Int := 2147483647

/-- The value of an `int` expression whose mathematical value is `x`: `x` itself
inside the range of `int`, undefined behaviour (signed overflow) outside. -/
def c_int (x : Int) : Res Int :=
  if INT_MIN ≤ x ∧ x ≤ INT_MAX then .ok x else .fault

/-! ## Constants -/

/-- The constants of `def.h` whose values the sources do not show. -/
structure Consts where
  NUM_DBLOCKS : Nat
  NUM_INODES : Nat
  NUM_OPEN_FILE : Nat
  RSFS_RDONLY : Int
  RSFS_RDWR : Int
  RSFS_SEEK_SET : Int
  RSFS_SEEK_CUR : Int
  RSFS_SEEK_END : Int
  deriving DecidableEq, Repr

/-- The configuration used for the concrete runs: 32 data blocks, 8 inodes,
8 open-file slots, flags numbered from 0 in the order of their declaration. -/
def Consts.usual : Consts :=
  { NUM_DBLOCKS := 32, NUM_INODES := 8, NUM_OPEN_FILE := 8,
    RSFS_RDONLY := 0, RSFS_RDWR := 1,
    RSFS_SEEK_SET := 0, RSFS_SEEK_CUR := 1, RSFS_SEEK_END := 2 }

/-- Bytes in one data block (`malloc(BLOCK_SIZE)`, and the literal 32 of `api.c`). -/
def BLOCK_SIZE : Int := 32

/-- Direct pointers in one inode (the literal 8 of the pointer loops of `api.c`). -/
def NUM_POINTER : Nat := 8

/-- The `EOF` of `stdio.h`, which `RSFS_fseek` adds to the offset. -/
def EOF : Int := -1

/-! ## State -/

/-- The record `struct inode`. -/
structure inode where
  length : Int
  block : List Int
  deriving DecidableEq, Repr

/-- The record `struct dir_entry`; `addr` is the address of the heap cell. -/
structure dir_entry where
  addr : Nat
  name : String
  inode_number : Int
  deriving DecidableEq, Repr

/-- The record `struct open_file_entry`; the pointer `dir_entry` is the address of a
directory entry, `none` for NULL. -/
structure open_file_entry where
  used : Int
  dir_entry : Option Nat
  position : Int
  access_flag : Int
  deriving DecidableEq, Repr

/-- The global variables of the program.  The member `entry_mutex` of the slots of
the open-file table is kept in a list of its own: `entry_mutex[i]` tells whether the
mutex `open_file_table[i].entry_mutex` is held. -/
structure FS where
  data_blocks : List (List Nat)
  data_bitmap : List Int
  inode_bitmap : List Int
  inodes : List inode
  bytes_track : List Int
  open_file_table : List open_file_entry
  entry_mutex : List Bool
  root_dir : List dir_entry
  next_addr : Nat
  deriving DecidableEq, Repr

/-- The globals at program start: static storage is zero-initialised (a mutex of
all zero bytes is one that is not held). -/
def boot (k : Consts) : FS :=
  { data_blocks := List.replicate k.NUM_DBLOCKS [],
    data_bitmap := List.replicate k.NUM_DBLOCKS 0,
    inode_bitmap := List.replicate k.NUM_INODES 0,
    inodes := List.replicate k.NUM_INODES ⟨0, List.replicate NUM_POINTER 0⟩,
    bytes_track := List.replicate k.NUM_DBLOCKS 0,
    open_file_table := List.replicate k.NUM_OPEN_FILE ⟨0, none, 0, 0⟩,
    entry_mutex := List.replicate k.NUM_OPEN_FILE false,
    root_dir := [],
    next_addr := 0 }

/-- The function `RSFS_init`: every block is allocated (its bytes are taken to be 0,
and `malloc` to succeed), bitmaps, inodes and the tracker are reset, the directory is emptied.
The loop over the open-file table assigns to a local copy `entry` of each slot
(and initialises the mutex of the copy), so the table itself is left as it was. -/
def RSFS_init (k : Consts) (s : FS) : Int × FS :=
  (0, { s with
          data_blocks := List.replicate k.NUM_DBLOCKS (List.replicate BLOCK_SIZE.toNat 0),
          data_bitmap := List.replicate k.NUM_DBLOCKS 0,
          inode_bitmap := List.replicate k.NUM_INODES 0,
          inodes := List.replicate k.NUM_INODES ⟨0, List.replicate NUM_POINTER (-1)⟩,
          bytes_track := List.replicate k.NUM_DBLOCKS 0,
          root_dir := [] })

/-- The state right after `RSFS_init` on a freshly started program. -/
def fresh (k : Consts) : FS := (RSFS_init k (boot k)).2

/-! ## Helpers that are declared in `def.h` -/

/-- Modelled from the spec: `search_dir` is not among the sources; section 4.3,
`lookup(name) -> dir_entry | NOT_FOUND`, a linear scan of the ordered list. -/
def search_dir (s : FS) (file_name : String) : Option dir_entry :=
  s.root_dir.find? (fun d => d.name = file_name)

/-- Modelled from the spec: `insert_dir` is not among the sources; section 4.3,
`insert(name) -> dir_entry`, failing (NULL) when the name is present, otherwise a
new entry at the end of the list.  The new entry carries inode number -1 until
`RSFS_create` stores one (the value `RSFS_open` tests for with `i < 0`). -/
def insert_dir (s : FS) (file_name : String) : Option Nat × FS :=
  match search_dir s file_name with
  | some _ => (none, s)
  | none =>
    (some s.next_addr,
     { s with root_dir := s.root_dir ++ [⟨s.next_addr, file_name, -1⟩],
              next_addr := s.next_addr + 1 })

/-- Modelled from the spec: `delete_dir` is not among the sources; section 4.3,
`remove(name)`: the entry of that name leaves the list and its cell is freed. -/
def delete_dir (s : FS) (file_name : String) : FS :=
  { s with root_dir := s.root_dir.filter (fun d => d.name ≠ file_name) }

/-- Modelled from the spec: `allocate_inode` is not among the sources; section 4.2,
`allocate_inode() -> inode_index | ERR_NO_SPACE`, first-fit scan of the bitmap; the
error value is negative (`RSFS_create` tests `inode_number<0`). -/
def allocate_inode (s : FS) : Int × FS :=
  match s.inode_bitmap.findIdx? (fun b => b = 0) with
  | some i => ((i : Int), { s with inode_bitmap := s.inode_bitmap.set i 1 })
  | none => (-1, s)

/-- Modelled from the spec: `free_inode` is not among the sources; section 4.2,
`free_inode(index)` resets `length=0`, clears every block pointer to the empty
sentinel, then clears the bitmap bit. -/
def free_inode (s : FS) (inode_number : Int) : Res FS := do
  let ino ← rd s.inodes inode_number
  let inodes ← wr s.inodes inode_number ⟨0, List.replicate ino.block.length (-1)⟩
  let bm ← wr s.inode_bitmap inode_number 0
  pure { s with inodes := inodes, inode_bitmap := bm }

/-- Modelled from the spec: `free_data_block` is not among the sources; section 4.1,
`free_block(index)` clears the bitmap bit (a no-op on a free block) and resets
`used_bytes` to 0. -/
def free_data_block (s : FS) (block_num : Int) : Res FS := do
  let bm ← wr s.data_bitmap block_num 0
  let bt ← wr s.bytes_track block_num 0
  pure { s with data_bitmap := bm, bytes_track := bt }

/-- Modelled from the spec: `allocate_open_file_entry` is not among the sources;
the spec, section 4.4, `allocate_descriptor(access_mode, dir_entry) -> fd | ERR_NO_FREE_SLOT`:
scans for `used=false`, marks it used, binds the directory entry and mode, resets
`position=0`; the error value is -1 (section 6, `open`).  The scan is guarded by the
table-wide lock; the mutex of the slot is left as it is. -/
def allocate_open_file_entry (s : FS) (access_flag : Int) (d : Nat) : Int × FS :=
  match s.open_file_table.findIdx? (fun e => e.used = 0) with
  | some i =>
    ((i : Int),
     { s with open_file_table := s.open_file_table.set i ⟨1, some d, 0, access_flag⟩ })
  | none => (-1, s)

/-- Modelled from the spec: `free_open_file_entry` is not among the sources;
the spec, section 4.4, `free_descriptor(fd)` marks the slot unused, clears its binding, and
resets `position`; the mutex of the slot is left as it is. -/
def free_open_file_entry (s : FS) (fd : Int) : Res FS := do
  let e ← rd s.open_file_table fd
  let tbl ← wr s.open_file_table fd { e with used := 0, dir_entry := none, position := 0 }
  pure { s with open_file_table := tbl }

/-- The dereference `p->...` of a pointer to a directory entry: a fault for NULL and
for an entry that `delete_dir` has freed. -/
def deref (s : FS) (p : Option Nat) : Res dir_entry :=
  match p with
  | none => .fault
  | some a =>
    match s.root_dir.find? (fun d => d.addr = a) with
    | some d => .ok d
    | none => .fault

/-- The assignment `dir_entry->inode_number = n` through a pointer. -/
def set_inode_number (s : FS) (a : Nat) (n : Int) : FS :=
  let entries := s.root_dir.map
    (fun d => if d.addr = a then { d with inode_number := n } else d)
  { s with root_dir := entries }

/-! ## The API of `api.c` -/

/-- The function `RSFS_create`: -1 when the name exists; otherwise the entry is
inserted (`ins` is the pointer `dir_entry` and the state), then an inode is allocated (`alloc` is
`inode_number` and the state; -2 when none is free) and stored in the entry. -/
def RSFS_create (s : FS) (file_name : String) : Res (Int × FS) :=
  match search_dir s file_name with
  | some _ => .ok (-1, s)
  | none =>
    let ins := insert_dir s file_name
    let alloc := allocate_inode ins.2
    if alloc.1 < 0 then .ok (-2, alloc.2)
    else
      match ins.1 with
      | none => .fault
      | some a => .ok (0, set_inode_number alloc.2 a alloc.1)

/-- The function `RSFS_open`: -1 for a flag that is neither RSFS_RDONLY nor
RSFS_RDWR, for an unknown name and for a negative inode number; otherwise the result of
`allocate_open_file_entry`. -/
def RSFS_open (k : Consts) (s : FS) (file_name : String) (access_flag : Int) :
    Res (Int × FS) :=
  if access_flag ≠ k.RSFS_RDONLY ∧ access_flag ≠ k.RSFS_RDWR then .ok (-1, s)
  else
    match search_dir s file_name with
    | none => .ok (-1, s)
    | some d =>
      if d.inode_number < 0 then .ok (-1, s)
      else .ok (allocate_open_file_entry s access_flag d.addr)

/-- Inner loop of `find` (`for j < NUM_INODES`) for a fixed `i`, with `n` iterations
left: `some r` is `return r`, `none` is the end of the loop. -/
def find_inner (s : FS) (cur_inode db_loc : Int) (i : Nat) : Nat → Nat → Res (Option Int)
  | 0, _ => .ok none
  | n + 1, j => do
    let ino ← rd s.inodes (i : Int)
    let b ← rd ino.block (j : Int)
    if (i : Int) = cur_inode ∧ b = db_loc then pure (some 1)
    else if (i : Int) ≠ cur_inode ∧ b = db_loc then pure (some 2)
    else find_inner s cur_inode db_loc i n (j + 1)

/-- Outer loop of `find` (`for i < NUM_INODES`), with `n` iterations left. -/
def find_outer (k : Consts) (s : FS) (cur_inode db_loc : Int) : Nat → Nat → Res Int
  | 0, _ => .ok 0
  | n + 1, i => do
    let r ← find_inner s cur_inode db_loc i k.NUM_INODES 0
    match r with
    | some v => pure v
    | none => find_outer k s cur_inode db_loc n (i + 1)

/-- The function `find(cur_inode, db_loc)`: 1 when the first pointer equal to
`db_loc`, in the order inode by inode, is in `cur_inode`, 2 when it is in another inode, 0 when no
pointer equals `db_loc`.  Both loops run to NUM_INODES. -/
def find (k : Consts) (s : FS) (cur_inode db_loc : Int) : Res Int :=
  find_outer k s cur_inode db_loc k.NUM_INODES 0

/-- The `for` loop at the head of `RSFS_write` that chooses `cur_bl`, with `n`
iterations left: the first block whose counter is in `0 .. 31` and that `find` does
not report as another file's.  When no block qualifies `cur_bl` keeps its initial
value 0. -/
def choose_block (k : Consts) (s : FS) (inode : Int) : Nat → Int → Res Int
  | 0, _ => .ok 0
  | n + 1, cur => do
    let bt ← rd s.bytes_track cur
    if bt ≥ 0 ∧ bt < 32 then
      let f ← find k s inode cur
      if f ≠ 2 then pure cur else choose_block k s inode n (cur + 1)
    else choose_block k s inode n (cur + 1)

/-- The call `memcpy(data_blocks[b] + off, buf + buf_pos, n)`. -/
def memcpy_to_block (s : FS) (b off : Int) (buf : List Nat) (buf_pos n : Int) : Res FS := do
  let blk ← rd s.data_blocks b
  if off < 0 ∨ off + n > blk.length ∨ buf_pos < 0 ∨ buf_pos + n > buf.length then .fault
  else
    let src := (buf.drop buf_pos.toNat).take n.toNat
    let dbs ← wr s.data_blocks b (blk.take off.toNat ++ src ++ blk.drop (off.toNat + n.toNat))
    pure { s with data_blocks := dbs }

/-- The statement `bytes_track[b] += n`. -/
def add_bytes_track (s : FS) (b n : Int) : Res FS := do
  let bt ← rd s.bytes_track b
  let v ← c_int (bt + n)
  let t ← wr s.bytes_track b v
  pure { s with bytes_track := t }

/-- The statement `inodes[inode].length += n`. -/
def add_length (s : FS) (inode n : Int) : Res FS := do
  let ino ← rd s.inodes inode
  let v ← c_int (ino.length + n)
  let t ← wr s.inodes inode { ino with length := v }
  pure { s with inodes := t }

/-- The statement `entry->position += n` for `entry = &open_file_table[fd]`. -/
def add_position (s : FS) (fd n : Int) : Res FS := do
  let e ← rd s.open_file_table fd
  let v ← c_int (e.position + n)
  let t ← wr s.open_file_table fd { e with position := v }
  pure { s with open_file_table := t }

/-- The call `pthread_mutex_lock(&entry->entry_mutex)` for
`entry = &open_file_table[fd]`: it never returns when the mutex is held. -/
def lock_entry (s : FS) (fd : Int) : Res FS := do
  let held ← rd s.entry_mutex fd
  if held = true then .blocked
  else
    let t ← wr s.entry_mutex fd true
    pure { s with entry_mutex := t }

/-- The call `pthread_mutex_unlock(&entry->entry_mutex)` for
`entry = &open_file_table[fd]`. -/
def unlock_entry (s : FS) (fd : Int) : Res FS := do
  let t ← wr s.entry_mutex fd false
  pure { s with entry_mutex := t }

/-- The statement `data_bitmap[b] = 1`. -/
def set_data_bitmap (s : FS) (b : Int) : Res FS := do
  let t ← wr s.data_bitmap b 1
  pure { s with data_bitmap := t }

/-- The statement `inodes[inode].block[i] = b`. -/
def set_block (s : FS) (inode i b : Int) : Res FS := do
  let ino ← rd s.inodes inode
  let blk ← wr ino.block i b
  let t ← wr s.inodes inode { ino with block := blk }
  pure { s with inodes := t }

/-- The pointer loop `while(i < 8)` of the overflow branch of `RSFS_write`, with `n`
iterations left.  (`cur_bl` is a valid index here: the branch has read
`bytes_track[cur_bl]` before.) -/
def pointer_loop_overflow (k : Consts) (inode cur_bl : Int) : Nat → Int → FS → Res FS
  | 0, _, s => .ok s
  | n + 1, i, s => do
    let ino ← rd s.inodes inode
    let p ← rd ino.block i
    let bt ← rd s.bytes_track cur_bl
    if p < 0 ∧ bt < 32 then
      let s1 ← set_block s inode i cur_bl
      set_data_bitmap s1 cur_bl
    else
      let f ← find k s inode cur_bl
      if f = 1 ∧ p ≥ 0 ∧ bt < 32 then set_data_bitmap s cur_bl
      else pointer_loop_overflow k inode cur_bl n (i + 1) s

/-- The pointer loop `while(i < 8)` of the other branch of `RSFS_write`, with `n`
iterations left; its second case also stores `cur_bl` in slot `i`. -/
def pointer_loop_fit (k : Consts) (inode cur_bl : Int) : Nat → Int → FS → Res FS
  | 0, _, s => .ok s
  | n + 1, i, s => do
    let ino ← rd s.inodes inode
    let p ← rd ino.block i
    let bt ← rd s.bytes_track cur_bl
    if p < 0 ∧ bt < 32 then
      let s1 ← set_block s inode i cur_bl
      set_data_bitmap s1 cur_bl
    else
      let f ← find k s inode cur_bl
      if f = 1 ∧ bt < 32 ∧ p ≥ 0 then
        let s1 ← set_data_bitmap s cur_bl
        set_block s1 inode i cur_bl
      else pointer_loop_fit k inode cur_bl n (i + 1) s

/-- One iteration of the copy loop of `RSFS_write`, entered with the locals
`buf_pos` and `cur_bl`: the state after it, the new `buf_pos`, the new `cur_bl`, and
the count `bytes` that the iteration adds to `bytes_written`. -/
def write_body (k : Consts) (fd inode : Int) (buf : List Nat) (size : Int)
    (s : FS) (buf_pos cur_bl : Int) : Res (FS × Int × Int × Int) := do
  let rest ← c_int (size - buf_pos)
  let bytes := if rest > BLOCK_SIZE then BLOCK_SIZE else rest
  let bt ← rd s.bytes_track cur_bl
  let total ← c_int (bytes + bt)
  if total > 32 then
    let room ← c_int (32 - bt)
    let bytes_to_write ← c_int (c_abs room)
    let diff ← c_int (bytes - bt)
    let bytes_left_over ← c_int (c_abs diff)
    let s1 ← memcpy_to_block s cur_bl bt buf buf_pos bytes_to_write
    let s2 ← add_bytes_track s1 cur_bl bytes_to_write
    let buf_pos1 ← c_int (buf_pos + bytes_to_write)
    let s3 ← pointer_loop_overflow k inode cur_bl 8 0 s2
    let bt1 ← rd s3.bytes_track (cur_bl + 1)
    let s4 ← memcpy_to_block s3 (cur_bl + 1) bt1 buf buf_pos1 bytes_left_over
    let buf_pos2 ← c_int (buf_pos1 + bytes_left_over)
    let s5 ← add_length s4 inode bytes
    let s6 ← add_bytes_track s5 (cur_bl + 1) bytes_left_over
    let s7 ← add_position s6 fd bytes
    pure (s7, buf_pos2, cur_bl + 1, bytes)
  else
    let s1 ← memcpy_to_block s cur_bl bt buf buf_pos bytes
    let s2 ← add_bytes_track s1 cur_bl bytes
    let buf_pos1 ← c_int (buf_pos + bytes)
    let s3 ← add_length s2 inode bytes
    let s4 ← pointer_loop_fit k inode cur_bl 8 0 s3
    let s5 ← add_position s4 fd bytes
    pure (s5, buf_pos1, cur_bl, bytes)

/-- The copy loop `while(buf_pos < size && cur_bl < NUM_DBLOCKS)` of `RSFS_write`
with a budget of iterations; the arguments after the state are the locals
`buf_pos`, `cur_bl` and `bytes_written`. -/
def write_loop (k : Consts) (fd inode : Int) (buf : List Nat) (size : Int) :
    Nat → FS → Int → Int → Int → Res (Int × FS)
  | 0, s, buf_pos, cur_bl, bytes_written =>
    if buf_pos < size ∧ cur_bl < k.NUM_DBLOCKS then .timeout else .ok (bytes_written, s)
  | fuel + 1, s, buf_pos, cur_bl, bytes_written =>
    if buf_pos < size ∧ cur_bl < k.NUM_DBLOCKS then do
      let r ← write_body k fd inode buf size s buf_pos cur_bl
      let written ← c_int (bytes_written + r.2.2.2)
      write_loop k fd inode buf size fuel r.1 r.2.1 r.2.2.1 written
    else .ok (bytes_written, s)

/-- The call `RSFS_write(fd, buf, size)`; `buf` is the caller's buffer, of any length.  The
entry mutex is taken after the sanity test and released before the return.  The
access flag of the descriptor is not read, and neither is its position (the locals
`inode_pos` and `block_ct` are unused).  The budget `size + NUM_DBLOCKS` covers
every run of the loop (`write_loop_budget`). -/
def RSFS_write (k : Consts) (s : FS) (fd : Int) (buf : List Nat) (size : Int) :
    Res (Int × FS) :=
  if (fd < 0 ∨ fd > 8) ∨ size < 0 then .ok (-1, s)
  else do
    let s0 ← lock_entry s fd
    let entry ← rd s0.open_file_table fd
    let dir_entry ← deref s0 entry.dir_entry
    let inode := dir_entry.inode_number
    let cur_bl ← choose_block k s0 inode k.NUM_DBLOCKS 0
    let r ← write_loop k fd inode buf size (size.toNat + k.NUM_DBLOCKS) s0 0 cur_bl 0
    let s1 ← unlock_entry r.2 fd
    pure (r.1, s1)

/-- The copy loop `while(bytes_read < size && cur_pos < file_length)` of `RSFS_read`
with a budget of iterations; the arguments after the budget are the caller's buffer
and the locals `bytes_read`, `buf_pos` and `cur_pos`; the result is `bytes_read`,
`cur_pos` and the buffer. -/
def read_loop (s : FS) (inode size file_length : Int) :
    Nat → List Nat → Int → Int → Int → Res (Int × Int × List Nat)
  | 0, buf, bytes_read, _, cur_pos =>
    if bytes_read < size ∧ cur_pos < file_length then .timeout
    else .ok (bytes_read, cur_pos, buf)
  | fuel + 1, buf, bytes_read, buf_pos, cur_pos =>
    if bytes_read < size ∧ cur_pos < file_length then do
      let cur_iblock := Int.tdiv cur_pos 32
      let cur_loc := Int.tmod cur_pos 32
      let ino ← rd s.inodes inode
      let b ← rd ino.block cur_iblock
      let bt ← rd s.bytes_track b
      let diff ← c_int (cur_loc - bt)
      let bytes_left ← c_int (c_abs diff)
      let blk ← rd s.data_blocks b
      if cur_loc < 0 ∨ cur_loc + bytes_left > blk.length ∨ buf_pos < 0
          ∨ buf_pos + bytes_left > buf.length then .fault
      else
        let src := (blk.drop cur_loc.toNat).take bytes_left.toNat
        let buf1 := buf.take buf_pos.toNat ++ src
          ++ buf.drop (buf_pos.toNat + bytes_left.toNat)
        let bytes_read1 ← c_int (bytes_read + bytes_left)
        let cur_pos1 ← c_int (cur_pos + bytes_left)
        let buf_pos1 ← c_int (buf_pos + bytes_left)
        read_loop s inode size file_length fuel buf1 bytes_read1 buf_pos1 cur_pos1
    else .ok (bytes_read, cur_pos, buf)

/-- The call `RSFS_read(fd, buf, size)`; `buf` is the caller's buffer, of any length; the
result is the returned count, the buffer and the state.  The entry mutex is taken
after the sanity test; the return at end of file leaves it held, the return after
the loop releases it.  An iteration that copies at least one byte advances
`cur_pos`, so the budget `file_length - cur_pos` is used up only by a loop that has
stopped advancing. -/
def RSFS_read (s : FS) (fd : Int) (buf : List Nat) (size : Int) :
    Res (Int × List Nat × FS) :=
  if (fd < 0 ∨ fd > 8) ∨ size < 0 then .ok (-1, buf, s)
  else do
    let s0 ← lock_entry s fd
    let entry ← rd s0.open_file_table fd
    let dir_entry ← deref s0 entry.dir_entry
    let inode := dir_entry.inode_number
    let cur_pos := entry.position
    let ino ← rd s0.inodes inode
    let file_length := ino.length
    if cur_pos ≥ file_length then pure (0, buf, s0)
    else
      let r ← read_loop s0 inode size file_length (file_length - cur_pos).toNat buf 0 0 cur_pos
      let t ← wr s0.open_file_table fd { entry with position := r.2.1 }
      let s1 ← unlock_entry { s0 with open_file_table := t } fd
      pure (r.1, r.2.2, s1)

/-- The call `RSFS_fseek(fd, offset, whence)`: `fd` is returned for a bad `fd` or `whence`;
otherwise, with the entry mutex taken, the position becomes `offset`,
`position + offset`, or `EOF + offset`, and the mutex is released.  The new position
is an `int`: an `offset` outside the range of `int` is no argument of the C function,
and a sum outside the range is a signed overflow. -/
def RSFS_fseek (k : Consts) (s : FS) (fd offset whence : Int) : Res (Int × FS) :=
  if (fd < 0 ∨ fd > 8) ∨ (whence < 0 ∨ whence > 2) then .ok (fd, s)
  else do
    let s0 ← lock_entry s fd
    let entry ← rd s0.open_file_table fd
    let _ ← deref s0 entry.dir_entry
    let pos ← (if whence = k.RSFS_SEEK_SET then c_int offset
      else if whence = k.RSFS_SEEK_CUR then c_int (entry.position + offset)
      else c_int (EOF + offset))
    let t ← wr s0.open_file_table fd { entry with position := pos }
    let s1 ← unlock_entry { s0 with open_file_table := t } fd
    pure (pos, s1)

/-- The call `RSFS_close(fd)`: -1 for `fd` outside 0..8, otherwise the slot is freed
and 0 returned (whether or not the slot was in use). -/
def RSFS_close (s : FS) (fd : Int) : Res (Int × FS) :=
  if fd < 0 ∨ fd > 8 then .ok (-1, s)
  else do
    let s1 ← free_open_file_entry s fd
    pure (0, s1)

/-- The loop `for(i < NUM_INODES)` of `RSFS_delete`, with `n` iterations left. -/
def delete_loop (inode : Int) : Nat → Int → FS → Res FS
  | 0, _, s => .ok s
  | n + 1, i, s => do
    let ino ← rd s.inodes inode
    let b ← rd ino.block i
    let t ← wr s.bytes_track b 0
    let s1 ← free_data_block { s with bytes_track := t } b
    delete_loop inode n (i + 1) s1

/-- The call `RSFS_delete(file_name)`: -1 for an unknown name; otherwise the blocks
named by the pointers are freed, then the inode, then the directory entry. -/
def RSFS_delete (k : Consts) (s : FS) (file_name : String) : Res (Int × FS) :=
  match search_dir s file_name with
  | none => .ok (-1, s)
  | some d => do
    let inode := d.inode_number
    let s1 ← delete_loop inode k.NUM_INODES 0 s
    let s2 ← free_inode s1 inode
    pure (0, delete_dir s2 file_name)

/-! ## Runs of the API -/

/-- One call of the API. -/
inductive Call where
  | create (file_name : String)
  | open_ (file_name : String) (access_flag : Int)
  | read (fd : Int) (buf : List Nat) (size : Int)
  | write (fd : Int) (buf : List Nat) (size : Int)
  | fseek (fd offset whence : Int)
  | close (fd : Int)
  | delete (file_name : String)
  deriving DecidableEq, Repr

/-- One call: the returned value and the state after it (the buffer that
`RSFS_read` filled is dropped). -/
def call (k : Consts) (s : FS) : Call → Res (Int × FS)
  | .create n => RSFS_create s n
  | .open_ n a => RSFS_open k s n a
  | .read fd buf size => (RSFS_read s fd buf size).bind (fun r => .ok (r.1, r.2.2))
  | .write fd buf size => RSFS_write k s fd buf size
  | .fseek fd o w => RSFS_fseek k s fd o w
  | .close fd => RSFS_close s fd
  | .delete n => RSFS_delete k s n

/-- The state after a sequence of calls, from state `s`. -/
def run (k : Consts) (s : FS) : List Call → Res FS
  | [] => .ok s
  | c :: cs => (call k s c).bind (fun r => run k r.2 cs)

/-- The values the calls of a sequence return, in order; the list ends with the
first call that does not return. -/
def returns (k : Consts) (s : FS) : List Call → List (Res Int)
  | [] => []
  | c :: cs =>
    match call k s c with
    | .ok r => .ok r.1 :: returns k r.2 cs
    | .fault => [.fault]
    | .timeout => [.timeout]
    | .blocked => [.blocked]

/-- The states the program can be in: those a sequence of API calls, each of which
returns, leads to from the state after `RSFS_init`. -/
def Reachable (k : Consts) (s : FS) : Prop :=
  ∃ calls : List Call, run k (fresh k) calls = .ok s

/-! ## Observations on a state -/

/-- The position of descriptor `fd`. -/
def fd_position (s : FS) (fd : Int) : Res Int := do
  let e ← rd s.open_file_table fd
  pure e.position

/-- The inode number behind descriptor `fd`: `entry->dir_entry->inode_number`. -/
def fd_inode (s : FS) (fd : Int) : Res Int := do
  let e ← rd s.open_file_table fd
  let d ← deref s e.dir_entry
  pure d.inode_number

/-- The length of the file behind descriptor `fd`. -/
def fd_length (s : FS) (fd : Int) : Res Int := do
  let i ← fd_inode s fd
  let ino ← rd s.inodes i
  pure ino.length

/-- The block pointer list of the file behind descriptor `fd`. -/
def fd_blocks (s : FS) (fd : Int) : Res (List Int) := do
  let i ← fd_inode s fd
  let ino ← rd s.inodes i
  pure ino.block

/-- The byte `data_blocks[b][j]`. -/
def byte_at (s : FS) (b : Int) (j : Nat) : Res Nat := do
  let blk ← rd s.data_blocks b
  rd blk (j : Int)

/-! ## Relations and sample states used by the theorems -/

/-- What a pointer loop of `RSFS_write` does to the inode table: nothing, or the
block index `b` is stored in one slot of `inodes[inode]`. -/
def PointerStored (inum b : Int) (a a1 : List inode) : Prop :=
  a1 = a ∨ ∃ (ino : inode) (i : Int), rd a inum = .ok ino ∧
    (0 ≤ i ∧ i.toNat < ino.block.length) ∧
    a1 = a.set inum.toNat { ino with block := ino.block.set i.toNat b }

/-- The inode table `a1` is `a` with `n` added to the length of `inodes[inum]` and
with some of its pointers replaced by block indices that satisfy `Q`. -/
def InodeUpd (Q : Int → Prop) (inum n : Int) (a a1 : List inode) : Prop :=
  ∃ (ino : inode) (blk : List Int), rd a inum = .ok ino ∧
    a1 = a.set inum.toNat ⟨ino.length + n, blk⟩ ∧
    blk.length = ino.block.length ∧ ∀ p ∈ blk, p ∈ ino.block ∨ Q p

/-- The open-file table `t1` is `t` with `n` added to the position of slot `fd`. -/
def PosUpd (fd n : Int) (t t1 : List open_file_entry) : Prop :=
  ∃ e : open_file_entry, rd t fd = .ok e ∧
    t1 = t.set fd.toNat { e with position := e.position + n }

/-- The state `s1` keeps what `s` has stored: no counter `bytes_track[b]` is smaller
in `s1` than in `s`, and every byte of a block below the counter that the block has
in `s` is the same in `s1`. -/
def AppendOnly (s s1 : FS) : Prop :=
  ∀ (b bt : Int), rd s.bytes_track b = .ok bt →
    (∃ bt1 : Int, rd s1.bytes_track b = .ok bt1 ∧ bt ≤ bt1) ∧
    ∀ j : Nat, (j : Int) < bt → byte_at s1 b j = byte_at s b j

/-- The shape of the inode table: every inode has NUM_POINTER pointers, each -1 or
the index of a data block, and a non-negative length. -/
def InodeInv (k : Consts) (s : FS) : Prop :=
  ∀ ino ∈ s.inodes, ino.block.length = NUM_POINTER ∧ 0 ≤ ino.length ∧
    ∀ p ∈ ino.block, p = -1 ∨ (0 ≤ p ∧ p < k.NUM_DBLOCKS)

/-- The value of a run that returns, `d` for one that does not. -/
def Res.getD {α : Type} (r : Res α) (d : α) : α :=
  match r with
  | .ok a => a
  | _ => d

/-- A sample state: file `a` of 5 bytes, open read-write as descriptor 0 with the
cursor at 0. -/
def sample : FS :=
  (run Consts.usual (fresh Consts.usual)
    [.create "a", .open_ "a" 1, .write 0 [1, 2, 3, 4, 5] 5, .fseek 0 0 0]).getD
    (fresh Consts.usual)

/-- The open-file table with the access flag of slot `fd` replaced by `a`. -/
def flag_table (t : List open_file_entry) (fd a : Int) : List open_file_entry :=
  match rd t fd with
  | .ok e => t.set fd.toNat { e with access_flag := a }
  | _ => t

/-- The state with the access flag of descriptor `fd` replaced by `a`: the same
descriptor opened in mode `a`. -/
def set_access_flag (s : FS) (fd a : Int) : FS :=
  { s with open_file_table := flag_table s.open_file_table fd a }


/-- The sample state after `RSFS_write(0, buf, 5)` with five bytes 9. -/
def sample_written : FS :=
  ((RSFS_write Consts.usual sample 0 [9, 9, 9, 9, 9] 5).getD (0, sample)).2

/-- The state after nine 32-byte writes to one new file. -/
def nine_writes : FS :=
  (run Consts.usual (fresh Consts.usual)
    ([.create "a", .open_ "a" 1] ++ List.replicate 9 (.write 0 (List.range 32) 32))).getD
    (fresh Consts.usual)

/-- The state after writing 5 bytes to a new file: descriptor 0 has position 5 on a
file of length 5. -/
def sample_eof : FS :=
  (run Consts.usual (fresh Consts.usual)
    [.create "a", .open_ "a" 1, .write 0 [1, 2, 3, 4, 5] 5]).getD (fresh Consts.usual)

/-- A state with two descriptors on one 5-byte file: descriptor 0 at position 5,
descriptor 1 at position 0. -/
def two_open : FS :=
  (run Consts.usual (fresh Consts.usual)
    [.create "a", .open_ "a" 1, .open_ "a" 1, .write 0 [1, 2, 3, 4, 5] 5]).getD
    (fresh Consts.usual)

/-- A state in which a read cannot advance: after writes of 31 and 20 bytes the file
has length 59 and blocks 0 (32 bytes used) and 1 (19 bytes used); the cursor is set
to 51, offset 19 of block 1. -/
def stuck_state : FS :=
  (run Consts.usual (fresh Consts.usual)
    [.create "a", .open_ "a" 1, .write 0 (List.range 31) 31, .write 0 (List.range 20) 20,
     .fseek 0 51 0]).getD (fresh Consts.usual)

/-! ## Lemmas -/

section basics
variable {α β : Type}

@[simp] theorem Res.ok_bind (a : α) (f : α → Res β) : (Res.ok a).bind f = f a := rfl
@[simp] theorem Res.fault_bind (f : α → Res β) : (Res.fault : Res α).bind f = .fault := rfl
@[simp] theorem Res.timeout_bind (f : α → Res β) : (Res.timeout : Res α).bind f = .timeout := rfl
@[simp] theorem Res.blocked_bind (f : α → Res β) : (Res.blocked : Res α).bind f = .blocked := rfl
@[simp] theorem Res.bind_def (r : Res α) (f : α → Res β) : r >>= f = r.bind f := rfl
@[simp] theorem Res.pure_def (a : α) : (pure a : Res α) = .ok a := rfl

theorem Res.bind_eq_ok {r : Res α} {f : α → Res β} {b : β} :
    r.bind f = .ok b ↔ ∃ a, r = .ok a ∧ f a = .ok b := by
  cases r <;> simp

theorem Res.bind_eq_timeout {r : Res α} {f : α → Res β} :
    r.bind f = .timeout ↔ r = .timeout ∨ ∃ a, r = .ok a ∧ f a = .timeout := by
  cases r <;> simp

theorem Res.bind_eq_blocked {r : Res α} {f : α → Res β} :
    r.bind f = .blocked ↔ r = .blocked ∨ ∃ a, r = .ok a ∧ f a = .blocked := by
  cases r <;> simp

theorem c_int_eq_ok {x y : Int} :
    c_int x = .ok y ↔ (-2147483648 ≤ x ∧ x ≤ 2147483647) ∧ y = x := by
  unfold c_int INT_MIN INT_MAX
  split <;> simp_all [eq_comm]

theorem c_int_ne_timeout (x : Int) : c_int x ≠ .timeout := by
  unfold c_int
  split <;> simp

theorem rd_eq_ok {a : List α} {i : Int} {v : α} :
    rd a i = .ok v ↔ 0 ≤ i ∧ a[i.toNat]? = some v := by
  unfold rd
  split
  · simp; omega
  · rename_i h
    cases hv : a[i.toNat]? with
    | none => simp
    | some x =>
      simp only [Res.ok.injEq, Option.some.injEq, iff_and_self]
      intro _
      omega

theorem rd_ne_timeout (a : List α) (i : Int) : rd a i ≠ .timeout := by
  unfold rd
  split
  · simp
  · split <;> simp

theorem wr_eq_ok {a a1 : List α} {i : Int} {v : α} :
    wr a i v = .ok a1 ↔ (0 ≤ i ∧ i.toNat < a.length) ∧ a1 = a.set i.toNat v := by
  unfold wr
  split <;> simp_all [eq_comm]

theorem wr_ne_timeout (a : List α) (i : Int) (v : α) : wr a i v ≠ .timeout := by
  unfold wr
  split <;> simp

theorem rd_set {a : List α} {i j : Int} {v : α} (hi : 0 ≤ i) (hl : i.toNat < a.length) :
    rd (a.set i.toNat v) j = if j = i then .ok v else rd a j := by
  unfold rd
  by_cases hj : j < 0
  · have : j ≠ i := by omega
    simp [hj, this]
  · simp only [hj, if_false]
    by_cases hji : j = i
    · subst hji
      simp [List.getElem?_set_self, hl]
    · have : ¬ i.toNat = j.toNat := by omega
      simp [hji, List.getElem?_set_ne this]

end basics

theorem memcpy_to_block_ok {s s1 : FS} {b off : Int} {buf : List Nat} {bp n : Int}
    (h : memcpy_to_block s b off buf bp n = .ok s1) :
    ∃ dbs, s1 = { s with data_blocks := dbs } := by
  unfold memcpy_to_block at h
  simp only [Res.bind_def, Res.pure_def, Res.bind_eq_ok] at h
  obtain ⟨blk, -, h⟩ := h
  split at h
  · simp at h
  · simp only [Res.bind_eq_ok] at h
    obtain ⟨dbs, -, h⟩ := h
    exact ⟨dbs, by simpa [eq_comm] using h⟩

theorem add_bytes_track_ok {s s1 : FS} {b n : Int} (h : add_bytes_track s b n = .ok s1) :
    ∃ t, s1 = { s with bytes_track := t } := by
  unfold add_bytes_track at h
  simp only [Res.bind_def, Res.pure_def, Res.bind_eq_ok] at h
  obtain ⟨bt, -, v, -, t, -, h⟩ := h
  exact ⟨t, by simpa [eq_comm] using h⟩

theorem set_data_bitmap_ok {s s1 : FS} {b : Int} (h : set_data_bitmap s b = .ok s1) :
    ∃ t, s1 = { s with data_bitmap := t } := by
  unfold set_data_bitmap at h
  simp only [Res.bind_def, Res.pure_def, Res.bind_eq_ok] at h
  obtain ⟨t, -, h⟩ := h
  exact ⟨t, by simpa [eq_comm] using h⟩

theorem add_length_ok {s s1 : FS} {inode n : Int} (h : add_length s inode n = .ok s1) :
    ∃ ino, rd s.inodes inode = .ok ino ∧
      s1 = { s with inodes := s.inodes.set inode.toNat { ino with length := ino.length + n } } := by
  unfold add_length at h
  simp only [Res.bind_def, Res.pure_def, Res.bind_eq_ok, wr_eq_ok, c_int_eq_ok] at h
  obtain ⟨ino, hino, v, ⟨-, rfl⟩, t, ⟨-, rfl⟩, h⟩ := h
  exact ⟨ino, hino, by simpa [eq_comm] using h⟩

theorem add_position_ok {s s1 : FS} {fd n : Int} (h : add_position s fd n = .ok s1) :
    ∃ e, rd s.open_file_table fd = .ok e ∧
      s1 = { s with open_file_table :=
        s.open_file_table.set fd.toNat { e with position := e.position + n } } := by
  unfold add_position at h
  simp only [Res.bind_def, Res.pure_def, Res.bind_eq_ok, wr_eq_ok, c_int_eq_ok] at h
  obtain ⟨e, he, v, ⟨-, rfl⟩, t, ⟨-, rfl⟩, h⟩ := h
  exact ⟨e, he, by simpa [eq_comm] using h⟩

theorem set_block_ok {s s1 : FS} {inode i b : Int} (h : set_block s inode i b = .ok s1) :
    ∃ ino, rd s.inodes inode = .ok ino ∧ (0 ≤ i ∧ i.toNat < ino.block.length) ∧
      s1 = { s with inodes :=
        s.inodes.set inode.toNat { ino with block := ino.block.set i.toNat b } } := by
  unfold set_block at h
  simp only [Res.bind_def, Res.pure_def, Res.bind_eq_ok, wr_eq_ok] at h
  obtain ⟨ino, hino, blk, ⟨hi, rfl⟩, t, ⟨-, rfl⟩, h⟩ := h
  exact ⟨ino, hino, hi, by simpa [eq_comm] using h⟩



theorem pointer_loop_overflow_ok (k : Consts) (inum cb : Int) (n : Nat) :
    ∀ (i : Int) (s s1 : FS), pointer_loop_overflow k inum cb n i s = .ok s1 →
      ∃ bm a1, s1 = { s with data_bitmap := bm, inodes := a1 } ∧
        PointerStored inum cb s.inodes a1 := by
  induction n with
  | zero =>
    intro i s s1 h
    simp only [pointer_loop_overflow, Res.ok.injEq] at h
    subst h
    exact ⟨s.data_bitmap, s.inodes, rfl, Or.inl rfl⟩
  | succ n ih =>
    intro i s s1 h
    simp only [pointer_loop_overflow, Res.bind_def, Res.bind_eq_ok] at h
    obtain ⟨ino, hino, p, hp, bt, hbt, h⟩ := h
    split at h
    · simp only [Res.bind_eq_ok] at h
      obtain ⟨s2, h2, h⟩ := h
      obtain ⟨ino2, hino2, hi, rfl⟩ := set_block_ok h2
      obtain ⟨t, rfl⟩ := set_data_bitmap_ok h
      exact ⟨t, _, rfl, Or.inr ⟨ino2, i, hino2, hi, rfl⟩⟩
    · simp only [Res.bind_eq_ok] at h
      obtain ⟨f, hf, h⟩ := h
      split at h
      · obtain ⟨t, rfl⟩ := set_data_bitmap_ok h
        exact ⟨t, s.inodes, rfl, Or.inl rfl⟩
      · exact ih _ _ _ h

theorem pointer_loop_fit_ok (k : Consts) (inum cb : Int) (n : Nat) :
    ∀ (i : Int) (s s1 : FS), pointer_loop_fit k inum cb n i s = .ok s1 →
      ∃ bm a1, s1 = { s with data_bitmap := bm, inodes := a1 } ∧
        PointerStored inum cb s.inodes a1 := by
  induction n with
  | zero =>
    intro i s s1 h
    simp only [pointer_loop_fit, Res.ok.injEq] at h
    subst h
    exact ⟨s.data_bitmap, s.inodes, rfl, Or.inl rfl⟩
  | succ n ih =>
    intro i s s1 h
    simp only [pointer_loop_fit, Res.bind_def, Res.bind_eq_ok] at h
    obtain ⟨ino, hino, p, hp, bt, hbt, h⟩ := h
    split at h
    · simp only [Res.bind_eq_ok] at h
      obtain ⟨s2, h2, h⟩ := h
      obtain ⟨ino2, hino2, hi, rfl⟩ := set_block_ok h2
      obtain ⟨t, rfl⟩ := set_data_bitmap_ok h
      exact ⟨t, _, rfl, Or.inr ⟨ino2, i, hino2, hi, rfl⟩⟩
    · simp only [Res.bind_eq_ok] at h
      obtain ⟨f, hf, h⟩ := h
      split at h
      · simp only [Res.bind_eq_ok] at h
        obtain ⟨s2, h2, h⟩ := h
        obtain ⟨t, rfl⟩ := set_data_bitmap_ok h2
        obtain ⟨ino2, hino2, hi, rfl⟩ := set_block_ok h
        exact ⟨t, _, rfl, Or.inr ⟨ino2, i, hino2, hi, rfl⟩⟩
      · exact ih _ _ _ h



theorem list_set_self {α : Type} : ∀ (l : List α) (i : Nat) (a : α),
    l[i]? = some a → l.set i a = l
  | [], _, _, h => by simp at h
  | x :: l, 0, a, h => by simp at h; simp [h]
  | x :: l, i + 1, a, h => by
    simp at h
    simp [list_set_self l i a h]

theorem rd_set_self {α : Type} {a : List α} {i : Int} {v w : α} (h : rd a i = .ok v) :
    rd (a.set i.toNat w) i = .ok w := by
  obtain ⟨h0, h1⟩ := rd_eq_ok.1 h
  have hl : i.toNat < a.length := by
    obtain ⟨hl, -⟩ := List.getElem?_eq_some.1 h1
    exact hl
  rw [rd_set h0 hl]
  simp

theorem InodeUpd_refl {Q : Int → Prop} {inum : Int} {a : List inode} {ino : inode}
    (h : rd a inum = .ok ino) : InodeUpd Q inum 0 a a := by
  refine ⟨ino, ino.block, h, ?_, rfl, fun p hp => Or.inl hp⟩
  have := (rd_eq_ok.1 h).2
  rw [list_set_self _ _ _ (by simpa using this)]

theorem InodeUpd_trans {Q : Int → Prop} {inum n m : Int} {a a1 a2 : List inode}
    (h1 : InodeUpd Q inum n a a1) (h2 : InodeUpd Q inum m a1 a2) :
    InodeUpd Q inum (n + m) a a2 := by
  obtain ⟨ino, blk, hino, rfl, hlen, hmem⟩ := h1
  obtain ⟨ino1, blk1, hino1, rfl, hlen1, hmem1⟩ := h2
  rw [rd_set_self hino] at hino1
  simp only [Res.ok.injEq] at hino1
  subst hino1
  refine ⟨ino, blk1, hino, ?_, by simpa [hlen] using hlen1, ?_⟩
  · simp [List.set_set, add_assoc]
  · intro p hp
    rcases hmem1 p hp with h | h
    · exact hmem p h
    · exact Or.inr h

theorem InodeUpd_mono {Q R : Int → Prop} {inum n : Int} {a a1 : List inode}
    (h : InodeUpd Q inum n a a1) (hQR : ∀ p, Q p → R p) : InodeUpd R inum n a a1 := by
  obtain ⟨ino, blk, hino, rfl, hlen, hmem⟩ := h
  exact ⟨ino, blk, hino, rfl, hlen, fun p hp => (hmem p hp).imp id (hQR p)⟩

theorem InodeUpd_of_add_length {Q : Int → Prop} {inum n : Int} {a : List inode} {ino : inode}
    (h : rd a inum = .ok ino) :
    InodeUpd Q inum n a (a.set inum.toNat { ino with length := ino.length + n }) :=
  ⟨ino, ino.block, h, rfl, rfl, fun _ hp => Or.inl hp⟩

theorem InodeUpd_of_stored {Q : Int → Prop} {inum cb : Int} {a a1 : List inode} {ino : inode}
    (h : PointerStored inum cb a a1) (hino : rd a inum = .ok ino) (hQ : Q cb) :
    InodeUpd Q inum 0 a a1 := by
  rcases h with rfl | ⟨ino1, i, hino1, hi, rfl⟩
  · exact InodeUpd_refl hino
  · refine ⟨ino1, ino1.block.set i.toNat cb, hino1, by simp, by simp, ?_⟩
    intro p hp
    rcases List.mem_or_eq_of_mem_set hp with h | h
    · exact Or.inl h
    · exact Or.inr (h ▸ hQ)

theorem PointerStored_rd_before {inum cb : Int} {a a1 : List inode} {ino1 : inode}
    (h : PointerStored inum cb a a1) (h1 : rd a1 inum = .ok ino1) :
    ∃ ino, rd a inum = .ok ino := by
  rcases h with rfl | ⟨ino, i, hino, -, -⟩
  · exact ⟨ino1, h1⟩
  · exact ⟨ino, hino⟩

theorem InodeUpd_rd_after {Q : Int → Prop} {inum n : Int} {a a1 : List inode}
    (h : InodeUpd Q inum n a a1) : ∃ ino1, rd a1 inum = .ok ino1 := by
  obtain ⟨ino, blk, hino, rfl, -, -⟩ := h
  exact ⟨_, rd_set_self hino⟩

theorem PosUpd_refl {fd : Int} {t : List open_file_entry} {e : open_file_entry}
    (h : rd t fd = .ok e) : PosUpd fd 0 t t := by
  refine ⟨e, h, ?_⟩
  have := (rd_eq_ok.1 h).2
  rw [list_set_self _ _ _ (by simpa using this)]

theorem PosUpd_trans {fd n m : Int} {t t1 t2 : List open_file_entry}
    (h1 : PosUpd fd n t t1) (h2 : PosUpd fd m t1 t2) : PosUpd fd (n + m) t t2 := by
  obtain ⟨e, he, rfl⟩ := h1
  obtain ⟨e1, he1, rfl⟩ := h2
  rw [rd_set_self he] at he1
  simp only [Res.ok.injEq] at he1
  subst he1
  exact ⟨e, he, by simp [List.set_set, add_assoc]⟩



theorem c_abs_nonneg (x : Int) : 0 ≤ c_abs x := by
  unfold c_abs
  split <;> omega

set_option maxHeartbeats 2000000 in
theorem write_body_ok {k : Consts} {fd inum : Int} {buf : List Nat} {size : Int} {s : FS}
    {bp cb : Int} {r : FS × Int × Int × Int}
    (h : write_body k fd inum buf size s bp cb = .ok r) (hbp : bp < size) :
    ∃ dbs bm bt a1 t1,
      r.1 = { s with data_blocks := dbs, data_bitmap := bm, bytes_track := bt,
                     inodes := a1, open_file_table := t1 } ∧
      InodeUpd (fun p => p = cb) inum r.2.2.2 s.inodes a1 ∧
      PosUpd fd r.2.2.2 s.open_file_table t1 ∧
      (1 ≤ r.2.2.2 ∧ r.2.2.2 ≤ 32) ∧
      ((r.2.2.1 = cb ∧ bp < r.2.1) ∨ (r.2.2.1 = cb + 1 ∧ bp ≤ r.2.1)) := by
  have hbytes : 1 ≤ (if size - bp > BLOCK_SIZE then BLOCK_SIZE else size - bp) ∧
      (if size - bp > BLOCK_SIZE then BLOCK_SIZE else size - bp) ≤ 32 := by
    unfold BLOCK_SIZE
    split <;> omega
  unfold write_body at h
  simp only [Res.bind_def, Res.pure_def, Res.bind_eq_ok, c_int_eq_ok] at h
  obtain ⟨rest, ⟨-, rfl⟩, h⟩ := h
  generalize (if size - bp > BLOCK_SIZE then BLOCK_SIZE else size - bp) = bytes at h hbytes
  obtain ⟨bt, hbt, total, ⟨-, rfl⟩, h⟩ := h
  by_cases hov : bytes + bt > 32
  · rw [if_pos hov] at h
    simp only [Res.bind_eq_ok, c_int_eq_ok, Res.ok.injEq] at h
    obtain ⟨room, ⟨-, rfl⟩, btw, ⟨-, rfl⟩, diff, ⟨-, rfl⟩, blo, ⟨-, rfl⟩, s1, h1, s2, h2,
      bp1, ⟨-, rfl⟩, s3, h3, bt1, -, s4, h4, bp2, ⟨-, rfl⟩, s5, h5, s6, h6, s7, h7, rfl⟩ := h
    obtain ⟨d1, rfl⟩ := memcpy_to_block_ok h1
    obtain ⟨t2, rfl⟩ := add_bytes_track_ok h2
    obtain ⟨bm3, a3, rfl, hst⟩ := pointer_loop_overflow_ok _ _ _ _ _ _ _ h3
    obtain ⟨d4, rfl⟩ := memcpy_to_block_ok h4
    obtain ⟨ino5, hino5, rfl⟩ := add_length_ok h5
    obtain ⟨t6, rfl⟩ := add_bytes_track_ok h6
    obtain ⟨e7, he7, rfl⟩ := add_position_ok h7
    dsimp only at hst hino5 he7
    obtain ⟨ino, hino⟩ := PointerStored_rd_before hst hino5
    refine ⟨_, _, _, _, _, rfl, ?_, ⟨e7, he7, rfl⟩, hbytes, Or.inr ⟨rfl, ?_⟩⟩
    · have := InodeUpd_trans (InodeUpd_of_stored (Q := fun p => p = cb) hst hino rfl)
        (InodeUpd_of_add_length (Q := fun p => p = cb) (n := bytes) hino5)
      simpa using this
    · have := c_abs_nonneg (32 - bt)
      have := c_abs_nonneg (bytes - bt)
      show bp ≤ bp + c_abs (32 - bt) + c_abs (bytes - bt)
      omega
  · rw [if_neg hov] at h
    simp only [Res.bind_eq_ok, c_int_eq_ok, Res.ok.injEq] at h
    obtain ⟨s1, h1, s2, h2, bp1, ⟨-, rfl⟩, s3, h3, s4, h4, s5, h5, rfl⟩ := h
    obtain ⟨d1, rfl⟩ := memcpy_to_block_ok h1
    obtain ⟨t2, rfl⟩ := add_bytes_track_ok h2
    obtain ⟨ino3, hino3, rfl⟩ := add_length_ok h3
    obtain ⟨bm4, a4, rfl, hst⟩ := pointer_loop_fit_ok _ _ _ _ _ _ _ h4
    obtain ⟨e5, he5, rfl⟩ := add_position_ok h5
    dsimp only at hst hino3 he5
    refine ⟨_, _, _, _, _, rfl, ?_, ⟨e5, he5, rfl⟩, hbytes, Or.inl ⟨rfl, ?_⟩⟩
    · have h0 := InodeUpd_of_add_length (Q := fun p => p = cb) (n := bytes) hino3
      obtain ⟨ino4, hino4⟩ := InodeUpd_rd_after h0
      have := InodeUpd_trans h0 (InodeUpd_of_stored (Q := fun p => p = cb) hst hino4 rfl)
      simpa using this
    · show bp < bp + bytes
      omega

theorem write_loop_ok (k : Consts) (fd inum : Int) (buf : List Nat) (size : Int) :
    ∀ (fuel : Nat) (s : FS) (bp cb bw w : Int) (s1 : FS),
      write_loop k fd inum buf size fuel s bp cb bw = .ok (w, s1) →
      (s1 = s ∧ w = bw) ∨
      ∃ dbs bm bt a1 t1,
        s1 = { s with data_blocks := dbs, data_bitmap := bm, bytes_track := bt,
                      inodes := a1, open_file_table := t1 } ∧
        bw < w ∧
        InodeUpd (fun p => cb ≤ p ∧ p < k.NUM_DBLOCKS) inum (w - bw) s.inodes a1 ∧
        PosUpd fd (w - bw) s.open_file_table t1 := by
  intro fuel
  induction fuel with
  | zero =>
    intro s bp cb bw w s1 h
    unfold write_loop at h
    split at h
    · simp at h
    · simp only [Res.ok.injEq, Prod.mk.injEq] at h
      exact Or.inl ⟨h.2.symm, h.1.symm⟩
  | succ fuel ih =>
    intro s bp cb bw w s1 h
    unfold write_loop at h
    split at h
    · rename_i hg
      simp only [Res.bind_def, Res.bind_eq_ok, c_int_eq_ok] at h
      obtain ⟨r, hr, bw1, ⟨-, rfl⟩, h⟩ := h
      obtain ⟨dbs, bm, bt, a1, t1, hr1, hI, hP, hb, hc⟩ := write_body_ok hr hg.1
      have hI1 : InodeUpd (fun p => cb ≤ p ∧ p < k.NUM_DBLOCKS) inum r.2.2.2 s.inodes a1 :=
        InodeUpd_mono hI (fun p hp => by subst hp; exact ⟨le_refl _, hg.2⟩)
      right
      rcases ih _ _ _ _ _ _ h with ⟨rfl, rfl⟩ | ⟨dbs2, bm2, bt2, a2, t2, rfl, hw, hI2, hP2⟩
      · refine ⟨dbs, bm, bt, a1, t1, hr1, by omega, ?_, ?_⟩
        · simpa using hI1
        · simpa using hP
      · rw [hr1] at hI2 hP2
        dsimp only at hI2 hP2
        refine ⟨dbs2, bm2, bt2, a2, t2, by rw [hr1], by omega, ?_, ?_⟩
        · have hI3 : InodeUpd (fun p => cb ≤ p ∧ p < k.NUM_DBLOCKS) inum
              (w - (bw + r.2.2.2)) a1 a2 :=
            InodeUpd_mono hI2 (fun p hp => ⟨by rcases hc with hc | hc <;> omega, hp.2⟩)
          have := InodeUpd_trans hI1 hI3
          have he : r.2.2.2 + (w - (bw + r.2.2.2)) = w - bw := by omega
          rwa [he] at this
        · have := PosUpd_trans hP hP2
          have he : r.2.2.2 + (w - (bw + r.2.2.2)) = w - bw := by omega
          rwa [he] at this
    · simp only [Res.ok.injEq, Prod.mk.injEq] at h
      exact Or.inl ⟨h.2.symm, h.1.symm⟩



theorem choose_block_nonneg (k : Consts) (s : FS) (inum : Int) :
    ∀ (n : Nat) (cur c : Int), choose_block k s inum n cur = .ok c → 0 ≤ cur → 0 ≤ c := by
  intro n
  induction n with
  | zero =>
    intro cur c h _
    simp only [choose_block, Res.ok.injEq] at h
    omega
  | succ n ih =>
    intro cur c h hcur
    simp only [choose_block, Res.bind_def, Res.pure_def, Res.bind_eq_ok] at h
    obtain ⟨bt, -, h⟩ := h
    split at h
    · simp only [Res.bind_eq_ok] at h
      obtain ⟨f, -, h⟩ := h
      split at h
      · simp only [Res.ok.injEq] at h
        omega
      · exact ih _ _ h (by omega)
    · exact ih _ _ h (by omega)

theorem deref_congr (s s1 : FS) (h : s1.root_dir = s.root_dir) (p : Option Nat) :
    deref s1 p = deref s p := by
  unfold deref
  rw [h]

theorem lock_entry_ok {s s0 : FS} {fd : Int} (h : lock_entry s fd = .ok s0) :
    rd s.entry_mutex fd = .ok false ∧
      s0 = { s with entry_mutex := s.entry_mutex.set fd.toNat true } := by
  unfold lock_entry at h
  simp only [Res.bind_def, Res.pure_def, Res.bind_eq_ok] at h
  obtain ⟨held, hheld, h⟩ := h
  cases held with
  | true => simp at h
  | false =>
    simp only [Bool.false_eq_true, if_false, Res.bind_eq_ok, wr_eq_ok, Res.ok.injEq] at h
    obtain ⟨t, ⟨-, rfl⟩, rfl⟩ := h
    exact ⟨hheld, rfl⟩

theorem unlock_entry_ok {s s1 : FS} {fd : Int} (h : unlock_entry s fd = .ok s1) :
    s1 = { s with entry_mutex := s.entry_mutex.set fd.toNat false } := by
  unfold unlock_entry at h
  simp only [Res.bind_def, Res.pure_def, Res.bind_eq_ok, wr_eq_ok, Res.ok.injEq] at h
  obtain ⟨t, ⟨-, rfl⟩, rfl⟩ := h
  rfl

theorem mutex_restore {m : List Bool} {fd : Int} (h : rd m fd = .ok false) :
    (m.set fd.toNat true).set fd.toNat false = m := by
  rw [List.set_set]
  exact list_set_self _ _ _ (rd_eq_ok.1 h).2

/-- What a call of `RSFS_write` that returns does: -1 and no change for a bad `fd` or
size; otherwise the entry mutex was free and is free again, and the call returns a
count `w ≥ 0` that is added to the length of the file and to the position of the
descriptor, with new pointers that are block indices. -/
theorem RSFS_write_ok {k : Consts} {s : FS} {fd : Int} {buf : List Nat} {size w : Int}
    {s1 : FS} (h : RSFS_write k s fd buf size = .ok (w, s1)) :
    (((fd < 0 ∨ fd > 8) ∨ size < 0) ∧ w = -1 ∧ s1 = s) ∨
    (¬ ((fd < 0 ∨ fd > 8) ∨ size < 0) ∧
      ∃ e d, rd s.open_file_table fd = .ok e ∧ deref s e.dir_entry = .ok d ∧
        rd s.entry_mutex fd = .ok false ∧
        ((s1 = s ∧ w = 0) ∨
         ∃ dbs bm bt a1 t1,
          s1 = { s with data_blocks := dbs, data_bitmap := bm, bytes_track := bt,
                        inodes := a1, open_file_table := t1 } ∧
          0 < w ∧
          InodeUpd (fun p => 0 ≤ p ∧ p < k.NUM_DBLOCKS) d.inode_number w s.inodes a1 ∧
          PosUpd fd w s.open_file_table t1)) := by
  unfold RSFS_write at h
  split at h
  · rename_i hbad
    simp only [Res.ok.injEq, Prod.mk.injEq] at h
    exact Or.inl ⟨hbad, h.1.symm, h.2.symm⟩
  · rename_i hgood
    right
    simp only [Res.bind_def, Res.pure_def, Res.bind_eq_ok, Res.ok.injEq, Prod.mk.injEq] at h
    obtain ⟨s0, hs0, e, he, d, hd, cb, hcb, r, hr, s2, hs2, rfl, rfl⟩ := h
    obtain ⟨hm, rfl⟩ := lock_entry_ok hs0
    have hcb0 := choose_block_nonneg _ _ _ _ _ _ hcb (le_refl 0)
    have hs2a := unlock_entry_ok hs2
    dsimp only at he hd
    refine ⟨hgood, e, d, he, hd, hm, ?_⟩
    have hr1 : write_loop k fd d.inode_number buf size (size.toNat + k.NUM_DBLOCKS)
        { s with entry_mutex := s.entry_mutex.set fd.toNat true } 0 cb 0 = .ok (r.1, r.2) := hr
    rcases write_loop_ok _ _ _ _ _ _ _ _ _ _ _ _ hr1 with ⟨h2, hw⟩ |
      ⟨dbs, bm, bt, a1, t1, h2, hw, hI, hP⟩
    · left
      rw [hs2a, h2, hw]
      dsimp only
      rw [mutex_restore hm]
      exact ⟨rfl, rfl⟩
    · right
      refine ⟨dbs, bm, bt, a1, t1, ?_, hw, ?_, ?_⟩
      · rw [hs2a, h2]
        dsimp only
        rw [mutex_restore hm]
      · have := InodeUpd_mono (R := fun p => 0 ≤ p ∧ p < k.NUM_DBLOCKS) hI
          (fun p hp => ⟨by omega, hp.2⟩)
        simpa using this
      · simpa using hP

theorem fd_position_eq {s : FS} {fd : Int} {e : open_file_entry}
    (he : rd s.open_file_table fd = .ok e) : fd_position s fd = .ok e.position := by
  simp [fd_position, he]

theorem fd_length_eq {s : FS} {fd : Int} {e : open_file_entry} {d : dir_entry} {ino : inode}
    (he : rd s.open_file_table fd = .ok e) (hd : deref s e.dir_entry = .ok d)
    (hino : rd s.inodes d.inode_number = .ok ino) : fd_length s fd = .ok ino.length := by
  simp [fd_length, fd_inode, he, hd, hino]

section budget
variable {α : Type}

@[simp] theorem rd_eq_timeout (a : List α) (i : Int) : (rd a i = .timeout) = False :=
  eq_false (rd_ne_timeout a i)

@[simp] theorem wr_eq_timeout (a : List α) (i : Int) (v : α) : (wr a i v = .timeout) = False :=
  eq_false (wr_ne_timeout a i v)

@[simp] theorem c_int_eq_timeout (x : Int) : (c_int x = .timeout) = False :=
  eq_false (c_int_ne_timeout x)

end budget

@[simp] theorem lock_entry_eq_timeout (s : FS) (fd : Int) :
    (lock_entry s fd = .timeout) = False := by
  unfold lock_entry
  simp only [Res.bind_def, Res.pure_def, Res.bind_eq_timeout, rd_eq_timeout, false_or,
    eq_iff_iff, iff_false, not_exists, not_and]
  intro held _
  split <;> simp [Res.bind_eq_timeout]

@[simp] theorem unlock_entry_eq_timeout (s : FS) (fd : Int) :
    (unlock_entry s fd = .timeout) = False := by
  simp [unlock_entry, Res.bind_eq_timeout]

@[simp] theorem memcpy_to_block_eq_timeout (s : FS) (b off : Int) (buf : List Nat) (bp n : Int) :
    (memcpy_to_block s b off buf bp n = .timeout) = False := by
  unfold memcpy_to_block
  simp only [Res.bind_def, Res.pure_def, Res.bind_eq_timeout, rd_eq_timeout, false_or, eq_iff_iff,
    iff_false, not_exists, not_and]
  intro blk _
  split <;> simp [Res.bind_eq_timeout]

@[simp] theorem add_bytes_track_eq_timeout (s : FS) (b n : Int) :
    (add_bytes_track s b n = .timeout) = False := by
  simp [add_bytes_track, Res.bind_eq_timeout]

@[simp] theorem add_length_eq_timeout (s : FS) (i n : Int) :
    (add_length s i n = .timeout) = False := by
  simp [add_length, Res.bind_eq_timeout]

@[simp] theorem add_position_eq_timeout (s : FS) (fd n : Int) :
    (add_position s fd n = .timeout) = False := by
  simp [add_position, Res.bind_eq_timeout]

@[simp] theorem set_data_bitmap_eq_timeout (s : FS) (b : Int) :
    (set_data_bitmap s b = .timeout) = False := by
  simp [set_data_bitmap, Res.bind_eq_timeout]

@[simp] theorem set_block_eq_timeout (s : FS) (i j b : Int) :
    (set_block s i j b = .timeout) = False := by
  simp [set_block, Res.bind_eq_timeout]

@[simp] theorem find_inner_eq_timeout (s : FS) (ci db : Int) (i : Nat) :
    ∀ (n j : Nat), (find_inner s ci db i n j = .timeout) = False := by
  intro n
  induction n with
  | zero => intro j; simp [find_inner]
  | succ n ih =>
    intro j
    simp only [find_inner, Res.bind_def, Res.pure_def, Res.bind_eq_timeout, rd_eq_timeout,
      false_or, eq_iff_iff, iff_false, not_exists, not_and]
    intro ino _ b _
    split
    · simp
    · split
      · simp
      · simp [ih]

@[simp] theorem find_outer_eq_timeout (k : Consts) (s : FS) (ci db : Int) :
    ∀ (n i : Nat), (find_outer k s ci db n i = .timeout) = False := by
  intro n
  induction n with
  | zero => intro i; simp [find_outer]
  | succ n ih =>
    intro i
    simp only [find_outer, Res.bind_def, Res.pure_def, Res.bind_eq_timeout,
      find_inner_eq_timeout, false_or, eq_iff_iff, iff_false, not_exists, not_and]
    intro r _
    cases r <;> simp [ih]

@[simp] theorem find_eq_timeout (k : Consts) (s : FS) (ci db : Int) :
    (find k s ci db = .timeout) = False := by
  simp [find]

@[simp] theorem pointer_loop_overflow_eq_timeout (k : Consts) (inum cb : Int) :
    ∀ (n : Nat) (i : Int) (s : FS), (pointer_loop_overflow k inum cb n i s = .timeout) = False := by
  intro n
  induction n with
  | zero => intro i s; simp [pointer_loop_overflow]
  | succ n ih =>
    intro i s
    simp only [pointer_loop_overflow, Res.bind_def, Res.pure_def, Res.bind_eq_timeout,
      rd_eq_timeout, false_or, eq_iff_iff, iff_false, not_exists, not_and]
    intro ino _ p _ bt _
    split
    · simp [Res.bind_eq_timeout]
    · simp only [Res.bind_eq_timeout, find_eq_timeout, false_or, not_exists, not_and]
      intro f _
      split
      · simp
      · simp [ih]

@[simp] theorem pointer_loop_fit_eq_timeout (k : Consts) (inum cb : Int) :
    ∀ (n : Nat) (i : Int) (s : FS), (pointer_loop_fit k inum cb n i s = .timeout) = False := by
  intro n
  induction n with
  | zero => intro i s; simp [pointer_loop_fit]
  | succ n ih =>
    intro i s
    simp only [pointer_loop_fit, Res.bind_def, Res.pure_def, Res.bind_eq_timeout,
      rd_eq_timeout, false_or, eq_iff_iff, iff_false, not_exists, not_and]
    intro ino _ p _ bt _
    split
    · simp [Res.bind_eq_timeout]
    · simp only [Res.bind_eq_timeout, find_eq_timeout, false_or, not_exists, not_and]
      intro f _
      split
      · simp [Res.bind_eq_timeout]
      · simp [ih]

@[simp] theorem choose_block_eq_timeout (k : Consts) (s : FS) (inum : Int) :
    ∀ (n : Nat) (cur : Int), (choose_block k s inum n cur = .timeout) = False := by
  intro n
  induction n with
  | zero => intro cur; simp [choose_block]
  | succ n ih =>
    intro cur
    simp only [choose_block, Res.bind_def, Res.pure_def, Res.bind_eq_timeout,
      rd_eq_timeout, false_or, eq_iff_iff, iff_false, not_exists, not_and]
    intro bt _
    split
    · simp only [Res.bind_eq_timeout, find_eq_timeout, false_or, not_exists, not_and]
      intro f _
      split
      · simp
      · simp [ih]
    · simp [ih]

@[simp] theorem write_body_eq_timeout (k : Consts) (fd inum : Int) (buf : List Nat) (size : Int)
    (s : FS) (bp cb : Int) : (write_body k fd inum buf size s bp cb = .timeout) = False := by
  unfold write_body
  simp only [Res.bind_def, Res.pure_def, Res.bind_eq_timeout, rd_eq_timeout, c_int_eq_timeout,
    false_or, eq_iff_iff, iff_false, not_exists, not_and]
  intro rest _ bt _ total _
  split <;> simp [Res.bind_eq_timeout]

/-- The copy loop of `RSFS_write` never uses up a budget of at least
`(size - buf_pos) + (NUM_DBLOCKS - cur_bl)` iterations: every iteration either
consumes at least one byte of the request or moves to the next block. -/
theorem write_loop_budget (k : Consts) (fd inum : Int) (buf : List Nat) (size : Int) :
    ∀ (fuel : Nat) (s : FS) (bp cb bw : Int),
      (size - bp).toNat + ((k.NUM_DBLOCKS : Int) - cb).toNat ≤ fuel →
      write_loop k fd inum buf size fuel s bp cb bw ≠ .timeout := by
  intro fuel
  induction fuel with
  | zero =>
    intro s bp cb bw hm
    unfold write_loop
    split
    · omega
    · simp
  | succ fuel ih =>
    intro s bp cb bw hm
    unfold write_loop
    split
    · rename_i hg
      simp only [Res.bind_def, ne_eq, Res.bind_eq_timeout, write_body_eq_timeout,
        c_int_eq_timeout, false_or, not_exists, not_and]
      intro r hr bw1 _
      obtain ⟨-, -, -, -, -, -, -, -, -, hc⟩ := write_body_ok hr hg.1
      apply ih
      rcases hc with ⟨h1, h2⟩ | ⟨h1, h2⟩
      · rw [h1]; omega
      · rw [h1]; omega
    · simp

/-- The loop of `RSFS_write` always ends: the call returns a value, runs into
undefined behaviour, or waits at the entry mutex. -/
theorem RSFS_write_ne_timeout (k : Consts) (s : FS) (fd : Int) (buf : List Nat) (size : Int) :
    RSFS_write k s fd buf size ≠ .timeout := by
  unfold RSFS_write
  split
  · simp
  · simp only [Res.bind_def, Res.pure_def, ne_eq, Res.bind_eq_timeout, rd_eq_timeout,
      lock_entry_eq_timeout, unlock_entry_eq_timeout, false_or, or_false, not_exists, not_and,
      choose_block_eq_timeout, and_false, exists_false, not_false_eq_true, implies_true]
    intro s0 hs0 e _
    obtain ⟨-, rfl⟩ := lock_entry_ok hs0
    have hd : ∀ (x : FS) (p : Option Nat), deref x p ≠ .timeout := by
      intro x p
      unfold deref
      split
      · simp
      · split <;> simp
    rintro (h | ⟨d, -, cb, hcb, h⟩)
    · exact hd _ _ h
    · have hb : write_loop k fd d.inode_number buf size (size.toNat + k.NUM_DBLOCKS)
          { s with entry_mutex := s.entry_mutex.set fd.toNat true } 0 cb 0 ≠ .timeout := by
        apply write_loop_budget
        have := choose_block_nonneg _ _ _ _ _ _ hcb (le_refl 0)
        omega
      rcases h with h | ⟨a, -, a1, -, h⟩
      · exact hb h
      · simp at h

theorem mem_of_rd {α : Type} {a : List α} {i : Int} {v : α} (h : rd a i = .ok v) : v ∈ a := by
  obtain ⟨-, h1⟩ := rd_eq_ok.1 h
  obtain ⟨hl, rfl⟩ := List.getElem?_eq_some.1 h1
  exact List.getElem_mem hl

@[simp] theorem insert_dir_inodes (s : FS) (n : String) : (insert_dir s n).2.inodes = s.inodes := by
  unfold insert_dir
  split <;> rfl

@[simp] theorem allocate_inode_inodes (s : FS) : (allocate_inode s).2.inodes = s.inodes := by
  unfold allocate_inode
  split <;> rfl

@[simp] theorem allocate_open_file_entry_inodes (s : FS) (a : Int) (d : Nat) :
    (allocate_open_file_entry s a d).2.inodes = s.inodes := by
  unfold allocate_open_file_entry
  split <;> rfl

theorem RSFS_create_inodes {s : FS} {n : String} {r : Int × FS}
    (h : RSFS_create s n = .ok r) : r.2.inodes = s.inodes := by
  unfold RSFS_create at h
  split at h
  · simp only [Res.ok.injEq] at h
    rw [← h]
  · dsimp only at h
    split at h
    · simp only [Res.ok.injEq] at h
      rw [← h]
      simp
    · split at h
      · simp at h
      · simp only [Res.ok.injEq] at h
        rw [← h]
        simp [set_inode_number]

theorem RSFS_open_inodes {k : Consts} {s : FS} {n : String} {a : Int} {r : Int × FS}
    (h : RSFS_open k s n a = .ok r) : r.2.inodes = s.inodes := by
  unfold RSFS_open at h
  split at h
  · simp only [Res.ok.injEq] at h
    rw [← h]
  · split at h
    · simp only [Res.ok.injEq] at h
      rw [← h]
    · split at h <;> simp only [Res.ok.injEq] at h <;> rw [← h]
      simp

theorem RSFS_close_inodes {s : FS} {fd : Int} {r : Int × FS}
    (h : RSFS_close s fd = .ok r) : r.2.inodes = s.inodes := by
  unfold RSFS_close at h
  split at h
  · simp only [Res.ok.injEq] at h
    rw [← h]
  · simp only [free_open_file_entry, Res.bind_def, Res.pure_def, Res.bind_eq_ok,
      Res.ok.injEq] at h
    obtain ⟨s1, ⟨e, -, t, -, rfl⟩, rfl⟩ := h
    rfl

theorem RSFS_fseek_inodes {k : Consts} {s : FS} {fd o w : Int} {r : Int × FS}
    (h : RSFS_fseek k s fd o w = .ok r) : r.2.inodes = s.inodes := by
  unfold RSFS_fseek at h
  split at h
  · simp only [Res.ok.injEq] at h
    rw [← h]
  · simp only [Res.bind_def, Res.pure_def, Res.bind_eq_ok, Res.ok.injEq] at h
    obtain ⟨s0, h0, e, -, d, -, pos, -, t, -, s1, h1, rfl⟩ := h
    obtain ⟨-, -, rfl⟩ := lock_entry_ok h0
    obtain ⟨-, rfl⟩ := unlock_entry_ok h1
    rfl

theorem RSFS_read_inodes {s : FS} {fd : Int} {buf : List Nat} {size : Int}
    {r : Int × List Nat × FS}
    (h : RSFS_read s fd buf size = .ok r) : r.2.2.inodes = s.inodes := by
  unfold RSFS_read at h
  split at h
  · simp only [Res.ok.injEq] at h
    rw [← h]
  · simp only [Res.bind_def, Res.pure_def, Res.bind_eq_ok] at h
    obtain ⟨s0, h0, e, -, d, -, ino, -, h⟩ := h
    obtain ⟨-, -, rfl⟩ := lock_entry_ok h0
    split at h
    · simp only [Res.ok.injEq] at h
      rw [← h]
    · simp only [Res.bind_eq_ok, Res.ok.injEq] at h
      obtain ⟨x, -, t, -, s1, h1, rfl⟩ := h
      obtain ⟨-, rfl⟩ := unlock_entry_ok h1
      rfl

theorem free_data_block_inodes {s s1 : FS} {b : Int} (h : free_data_block s b = .ok s1) :
    s1.inodes = s.inodes := by
  simp only [free_data_block, Res.bind_def, Res.pure_def, Res.bind_eq_ok, Res.ok.injEq] at h
  obtain ⟨bm, -, bt, -, rfl⟩ := h
  rfl

theorem delete_loop_inodes (inum : Int) :
    ∀ (n : Nat) (i : Int) (s s1 : FS), delete_loop inum n i s = .ok s1 →
      s1.inodes = s.inodes := by
  intro n
  induction n with
  | zero =>
    intro i s s1 h
    simp only [delete_loop, Res.ok.injEq] at h
    rw [← h]
  | succ n ih =>
    intro i s s1 h
    simp only [delete_loop, Res.bind_def, Res.bind_eq_ok] at h
    obtain ⟨ino, -, b, -, t, -, s2, h2, h⟩ := h
    rw [ih _ _ _ h, free_data_block_inodes h2]

theorem RSFS_delete_inodes {k : Consts} {s : FS} {n : String} {r : Int × FS}
    (h : RSFS_delete k s n = .ok r) :
    r.2.inodes = s.inodes ∨ ∃ (i : Int) (ino : inode), rd s.inodes i = .ok ino ∧
      r.2.inodes = s.inodes.set i.toNat ⟨0, List.replicate ino.block.length (-1)⟩ := by
  unfold RSFS_delete at h
  split at h
  · simp only [Res.ok.injEq] at h
    rw [← h]
    exact Or.inl rfl
  · rename_i d _
    simp only [Res.bind_def, Res.pure_def, Res.bind_eq_ok, Res.ok.injEq] at h
    obtain ⟨s1, h1, s2, h2, rfl⟩ := h
    have e1 := delete_loop_inodes _ _ _ _ _ h1
    simp only [free_inode, Res.bind_def, Res.pure_def, Res.bind_eq_ok, Res.ok.injEq,
      wr_eq_ok] at h2
    obtain ⟨ino, hino, a, ⟨-, rfl⟩, bm, -, rfl⟩ := h2
    right
    refine ⟨d.inode_number, ino, by rw [← e1]; exact hino, ?_⟩
    simp [delete_dir, e1]

theorem InodeInv_fresh (k : Consts) : InodeInv k (fresh k) := by
  intro ino hino
  simp only [fresh, RSFS_init, List.mem_replicate] at hino
  obtain ⟨-, rfl⟩ := hino
  refine ⟨by simp, le_refl _, ?_⟩
  intro p hp
  simp only [List.mem_replicate] at hp
  exact Or.inl hp.2

theorem InodeInv_of_inodes_eq {k : Consts} {s s1 : FS} (h : s1.inodes = s.inodes)
    (hI : InodeInv k s) : InodeInv k s1 := by
  intro ino hino
  rw [h] at hino
  exact hI ino hino

theorem InodeInv_call {k : Consts} {s : FS} {c : Call} {r : Int × FS}
    (hI : InodeInv k s) (h : call k s c = .ok r) : InodeInv k r.2 := by
  cases c with
  | create n => exact InodeInv_of_inodes_eq (RSFS_create_inodes h) hI
  | open_ n a => exact InodeInv_of_inodes_eq (RSFS_open_inodes h) hI
  | read fd buf size =>
    simp only [call, Res.bind_eq_ok, Res.ok.injEq] at h
    obtain ⟨x, hx, rfl⟩ := h
    exact InodeInv_of_inodes_eq (RSFS_read_inodes hx) hI
  | fseek fd o w => exact InodeInv_of_inodes_eq (RSFS_fseek_inodes h) hI
  | close fd => exact InodeInv_of_inodes_eq (RSFS_close_inodes h) hI
  | delete n =>
    rcases RSFS_delete_inodes h with h1 | ⟨i, ino0, hino0, h1⟩
    · exact InodeInv_of_inodes_eq h1 hI
    · intro ino hino
      rw [h1] at hino
      rcases List.mem_or_eq_of_mem_set hino with hm | rfl
      · exact hI ino hm
      · refine ⟨?_, le_refl _, ?_⟩
        · simpa using (hI ino0 (mem_of_rd hino0)).1
        · intro p hp
          simp only [List.mem_replicate] at hp
          exact Or.inl hp.2
  | write fd buf size =>
    have h1 : RSFS_write k s fd buf size = .ok (r.1, r.2) := h
    rcases RSFS_write_ok h1 with ⟨-, -, hs⟩ | ⟨-, e, d, -, -, -, hcase⟩
    · rw [hs]; exact hI
    · rcases hcase with ⟨hs, -⟩ | ⟨dbs, bm, bt, a1, t1, hs, hw, hU, -⟩
      · rw [hs]; exact hI
      · obtain ⟨ino0, blk, hino0, rfl, hlen, hmem⟩ := hU
        have h0 := hI ino0 (mem_of_rd hino0)
        intro ino hino
        rw [hs] at hino
        rcases List.mem_or_eq_of_mem_set hino with hm | rfl
        · exact hI ino hm
        · refine ⟨by rw [← h0.1]; exact hlen, by have := h0.2.1; show 0 ≤ ino0.length + r.1; omega, ?_⟩
          intro p hp
          rcases hmem p hp with hp1 | hp1
          · exact h0.2.2 p hp1
          · exact Or.inr hp1

theorem InodeInv_run (k : Consts) :
    ∀ (calls : List Call) (s s1 : FS), InodeInv k s → run k s calls = .ok s1 →
      InodeInv k s1 := by
  intro calls
  induction calls with
  | nil =>
    intro s s1 hI h
    simp only [run, Res.ok.injEq] at h
    rw [← h]
    exact hI
  | cons c cs ih =>
    intro s s1 hI h
    simp only [run, Res.bind_eq_ok] at h
    obtain ⟨r, hr, h⟩ := h
    exact ih _ _ (InodeInv_call hI hr) h

section flag
variable (fd a : Int)

theorem Res.bind_assoc {α β γ : Type} (r : Res α) (f : α → Res β) (g : β → Res γ) :
    (r.bind f).bind g = r.bind (fun x => (f x).bind g) := by
  cases r <;> rfl

@[simp] theorem set_access_flag_data_blocks (s : FS) :
    (set_access_flag s fd a).data_blocks = s.data_blocks := rfl
@[simp] theorem set_access_flag_data_bitmap (s : FS) :
    (set_access_flag s fd a).data_bitmap = s.data_bitmap := rfl
@[simp] theorem set_access_flag_inode_bitmap (s : FS) :
    (set_access_flag s fd a).inode_bitmap = s.inode_bitmap := rfl
@[simp] theorem set_access_flag_inodes (s : FS) :
    (set_access_flag s fd a).inodes = s.inodes := rfl
@[simp] theorem set_access_flag_bytes_track (s : FS) :
    (set_access_flag s fd a).bytes_track = s.bytes_track := rfl
@[simp] theorem set_access_flag_root_dir (s : FS) :
    (set_access_flag s fd a).root_dir = s.root_dir := rfl
@[simp] theorem set_access_flag_open_file_table (s : FS) :
    (set_access_flag s fd a).open_file_table = flag_table s.open_file_table fd a := rfl

theorem memcpy_to_block_flag (s : FS) (b off : Int) (buf : List Nat) (bp n : Int) :
    memcpy_to_block (set_access_flag s fd a) b off buf bp n
      = (memcpy_to_block s b off buf bp n).bind (fun s1 => .ok (set_access_flag s1 fd a)) := by
  simp only [memcpy_to_block, Res.bind_def, Res.pure_def, set_access_flag_data_blocks,
    Res.bind_assoc]
  congr 1
  funext blk
  split
  · rfl
  · simp only [Res.bind_assoc, Res.ok_bind]
    rfl

theorem add_bytes_track_flag (s : FS) (b n : Int) :
    add_bytes_track (set_access_flag s fd a) b n
      = (add_bytes_track s b n).bind (fun s1 => .ok (set_access_flag s1 fd a)) := by
  simp only [add_bytes_track, Res.bind_def, Res.pure_def, set_access_flag_bytes_track,
    Res.bind_assoc, Res.ok_bind]
  rfl

theorem add_length_flag (s : FS) (i n : Int) :
    add_length (set_access_flag s fd a) i n
      = (add_length s i n).bind (fun s1 => .ok (set_access_flag s1 fd a)) := by
  simp only [add_length, Res.bind_def, Res.pure_def, set_access_flag_inodes,
    Res.bind_assoc, Res.ok_bind]
  rfl

theorem set_data_bitmap_flag (s : FS) (b : Int) :
    set_data_bitmap (set_access_flag s fd a) b
      = (set_data_bitmap s b).bind (fun s1 => .ok (set_access_flag s1 fd a)) := by
  simp only [set_data_bitmap, Res.bind_def, Res.pure_def, set_access_flag_data_bitmap,
    Res.bind_assoc, Res.ok_bind]
  rfl

theorem set_block_flag (s : FS) (i j b : Int) :
    set_block (set_access_flag s fd a) i j b
      = (set_block s i j b).bind (fun s1 => .ok (set_access_flag s1 fd a)) := by
  simp only [set_block, Res.bind_def, Res.pure_def, set_access_flag_inodes,
    Res.bind_assoc, Res.ok_bind]
  rfl

theorem rd_flag_table (t : List open_file_entry) :
    rd (flag_table t fd a) fd
      = (rd t fd).bind (fun e => .ok { e with access_flag := a }) := by
  unfold flag_table
  cases h : rd t fd with
  | ok e => simp only [rd_set_self h, Res.ok_bind]
  | fault => simp only [h, Res.fault_bind]
  | timeout => simp only [h, Res.timeout_bind]
  | blocked => simp only [h, Res.blocked_bind]

theorem add_position_flag (s : FS) (n : Int) :
    add_position (set_access_flag s fd a) fd n
      = (add_position s fd n).bind (fun s1 => .ok (set_access_flag s1 fd a)) := by
  simp only [add_position, Res.bind_def, Res.pure_def, set_access_flag_open_file_table,
    rd_flag_table, Res.bind_assoc, Res.ok_bind]
  cases h : rd s.open_file_table fd with
  | ok e =>
    obtain ⟨h0, h1⟩ := rd_eq_ok.1 h
    obtain ⟨hl, -⟩ := List.getElem?_eq_some.1 h1
    have hw : ∀ (v : open_file_entry),
        wr s.open_file_table fd v = .ok (s.open_file_table.set fd.toNat v) := by
      intro v
      simp [wr, h0, hl]
    have hw2 : ∀ (v : open_file_entry),
        wr (flag_table s.open_file_table fd a) fd v
          = .ok (s.open_file_table.set fd.toNat v) := by
      intro v
      simp [wr, flag_table, h, h0, hl, List.set_set]
    have hft : ∀ (v : open_file_entry),
        flag_table (s.open_file_table.set fd.toNat v) fd a
          = s.open_file_table.set fd.toNat { v with access_flag := a } := by
      intro v
      simp only [flag_table, rd_set_self h, List.set_set]
    simp only [Res.ok_bind, hw, hw2, set_access_flag, hft]
  | fault => simp only [Res.fault_bind]
  | timeout => simp only [Res.timeout_bind]
  | blocked => simp only [Res.blocked_bind]

theorem find_inner_flag (s : FS) (ci db : Int) (i : Nat) :
    ∀ (n j : Nat), find_inner (set_access_flag s fd a) ci db i n j = find_inner s ci db i n j := by
  intro n
  induction n with
  | zero => intro j; rfl
  | succ n ih =>
    intro j
    simp only [find_inner, set_access_flag_inodes, ih]

theorem find_outer_flag (k : Consts) (s : FS) (ci db : Int) :
    ∀ (n i : Nat), find_outer k (set_access_flag s fd a) ci db n i = find_outer k s ci db n i := by
  intro n
  induction n with
  | zero => intro i; rfl
  | succ n ih =>
    intro i
    simp only [find_outer, find_inner_flag, ih]

theorem find_flag (k : Consts) (s : FS) (ci db : Int) :
    find k (set_access_flag s fd a) ci db = find k s ci db := by
  simp only [find, find_outer_flag]

theorem choose_block_flag (k : Consts) (s : FS) (inum : Int) :
    ∀ (n : Nat) (cur : Int),
      choose_block k (set_access_flag s fd a) inum n cur = choose_block k s inum n cur := by
  intro n
  induction n with
  | zero => intro cur; rfl
  | succ n ih =>
    intro cur
    simp only [choose_block, set_access_flag_bytes_track, find_flag, ih]

theorem deref_flag (s : FS) (p : Option Nat) : deref (set_access_flag s fd a) p = deref s p :=
  rfl

theorem if_bind {α β : Type} (c : Prop) [Decidable c] (x y : Res α) (f : α → Res β) :
    (if c then x else y).bind f = if c then x.bind f else y.bind f := by
  split <;> rfl

theorem pointer_loop_overflow_flag (k : Consts) (inum cb : Int) :
    ∀ (n : Nat) (i : Int) (s : FS),
      pointer_loop_overflow k inum cb n i (set_access_flag s fd a)
        = (pointer_loop_overflow k inum cb n i s).bind
            (fun s1 => .ok (set_access_flag s1 fd a)) := by
  intro n
  induction n with
  | zero => intro i s; rfl
  | succ n ih =>
    intro i s
    simp only [pointer_loop_overflow, Res.bind_def, Res.pure_def, set_access_flag_inodes,
      set_access_flag_bytes_track, find_flag, set_block_flag, set_data_bitmap_flag, ih,
      Res.bind_assoc, Res.ok_bind, if_bind]

theorem pointer_loop_fit_flag (k : Consts) (inum cb : Int) :
    ∀ (n : Nat) (i : Int) (s : FS),
      pointer_loop_fit k inum cb n i (set_access_flag s fd a)
        = (pointer_loop_fit k inum cb n i s).bind
            (fun s1 => .ok (set_access_flag s1 fd a)) := by
  intro n
  induction n with
  | zero => intro i s; rfl
  | succ n ih =>
    intro i s
    simp only [pointer_loop_fit, Res.bind_def, Res.pure_def, set_access_flag_inodes,
      set_access_flag_bytes_track, find_flag, set_block_flag, set_data_bitmap_flag, ih,
      Res.bind_assoc, Res.ok_bind, if_bind]

theorem write_body_flag (k : Consts) (inum : Int) (buf : List Nat) (size : Int) (s : FS)
    (bp cb : Int) :
    write_body k fd inum buf size (set_access_flag s fd a) bp cb
      = (write_body k fd inum buf size s bp cb).bind
          (fun r => .ok (set_access_flag r.1 fd a, r.2)) := by
  simp only [write_body, Res.bind_def, Res.pure_def, set_access_flag_bytes_track,
    memcpy_to_block_flag, add_bytes_track_flag, add_length_flag, add_position_flag,
    pointer_loop_overflow_flag, pointer_loop_fit_flag, Res.bind_assoc, Res.ok_bind, if_bind]

theorem write_loop_flag (k : Consts) (inum : Int) (buf : List Nat) (size : Int) :
    ∀ (fuel : Nat) (s : FS) (bp cb bw : Int),
      write_loop k fd inum buf size fuel (set_access_flag s fd a) bp cb bw
        = (write_loop k fd inum buf size fuel s bp cb bw).bind
            (fun r => .ok (r.1, set_access_flag r.2 fd a)) := by
  intro fuel
  induction fuel with
  | zero =>
    intro s bp cb bw
    simp only [write_loop]
    split <;> rfl
  | succ fuel ih =>
    intro s bp cb bw
    simp only [write_loop, Res.bind_def]
    split
    · simp only [write_body_flag, ih, Res.bind_assoc, Res.ok_bind]
    · rfl

end flag


theorem rd_bounds {α : Type} {a : List α} {i : Int} {v : α} (h : rd a i = .ok v) :
    0 ≤ i ∧ i.toNat < a.length := by
  obtain ⟨h0, h1⟩ := rd_eq_ok.1 h
  obtain ⟨hl, -⟩ := List.getElem?_eq_some.1 h1
  exact ⟨h0, hl⟩

theorem rd_set_ne {α : Type} {a : List α} {i j : Int} {v e : α} (h : rd a i = .ok e)
    (hj : j ≠ i) : rd (a.set i.toNat v) j = rd a j := by
  obtain ⟨h0, hl⟩ := rd_bounds h
  rw [rd_set h0 hl, if_neg hj]

theorem RSFS_read_table {s : FS} {fd : Int} {buf : List Nat} {size : Int}
    {r : Int × List Nat × FS} (h : RSFS_read s fd buf size = .ok r) :
    r.2.2.root_dir = s.root_dir ∧
      (r.2.2.open_file_table = s.open_file_table ∨
        ∃ e v, rd s.open_file_table fd = .ok e ∧
          r.2.2.open_file_table = s.open_file_table.set fd.toNat v) := by
  unfold RSFS_read at h
  split at h
  · simp only [Res.ok.injEq] at h
    rw [← h]
    exact ⟨rfl, Or.inl rfl⟩
  · simp only [Res.bind_def, Res.pure_def, Res.bind_eq_ok] at h
    obtain ⟨s0, h0, e, he, d, -, ino, -, h⟩ := h
    obtain ⟨-, rfl⟩ := lock_entry_ok h0
    dsimp only at he
    split at h
    · simp only [Res.ok.injEq] at h
      rw [← h]
      exact ⟨rfl, Or.inl rfl⟩
    · simp only [Res.bind_eq_ok, Res.ok.injEq, wr_eq_ok] at h
      obtain ⟨x, -, t, ⟨-, rfl⟩, s1, h1, rfl⟩ := h
      obtain rfl := unlock_entry_ok h1
      exact ⟨rfl, Or.inr ⟨e, _, he, rfl⟩⟩

theorem RSFS_fseek_table {k : Consts} {s : FS} {fd o w : Int} {r : Int × FS}
    (h : RSFS_fseek k s fd o w = .ok r) :
    r.2.root_dir = s.root_dir ∧
      (r.2.open_file_table = s.open_file_table ∨
        ∃ e v, rd s.open_file_table fd = .ok e ∧
          r.2.open_file_table = s.open_file_table.set fd.toNat v) := by
  unfold RSFS_fseek at h
  split at h
  · simp only [Res.ok.injEq] at h
    rw [← h]
    exact ⟨rfl, Or.inl rfl⟩
  · simp only [Res.bind_def, Res.pure_def, Res.bind_eq_ok, Res.ok.injEq, wr_eq_ok] at h
    obtain ⟨s0, h0, e, he, d, -, pos, -, t, ⟨-, rfl⟩, s1, h1, rfl⟩ := h
    obtain ⟨-, rfl⟩ := lock_entry_ok h0
    obtain rfl := unlock_entry_ok h1
    exact ⟨rfl, Or.inr ⟨e, _, he, rfl⟩⟩

theorem RSFS_close_ok {s : FS} {fd : Int} {e : open_file_entry}
    (hfd : 0 ≤ fd ∧ fd ≤ 8) (he : rd s.open_file_table fd = .ok e) :
    RSFS_close s fd = .ok (0,
      { s with open_file_table := s.open_file_table.set fd.toNat
                 { e with used := 0, dir_entry := none, position := 0 } }) := by
  have hbad : ¬ (fd < 0 ∨ fd > 8) := by omega
  obtain ⟨h0, hl⟩ := rd_bounds he
  simp only [RSFS_close, if_neg hbad, free_open_file_entry, Res.bind_def, Res.pure_def, he,
    Res.ok_bind, wr, h0, hl, and_self, if_true]

/-- An iteration of the copy loop of `RSFS_read` that is entered at a cursor whose
offset in its block equals the block's counter copies 0 bytes and changes nothing,
so the loop uses up every budget: it does not end. -/
theorem read_loop_stuck (s : FS) (inum size file_length : Int) (buf : List Nat)
    (bytes_read buf_pos cur_pos : Int) (ino : inode) (b : Int) (blk : List Nat)
    (hg : bytes_read < size ∧ cur_pos < file_length)
    (hino : rd s.inodes inum = .ok ino)
    (hb : rd ino.block (Int.tdiv cur_pos 32) = .ok b)
    (hbt : rd s.bytes_track b = .ok (Int.tmod cur_pos 32))
    (hblk : rd s.data_blocks b = .ok blk)
    (hloc : 0 ≤ Int.tmod cur_pos 32 ∧ Int.tmod cur_pos 32 ≤ blk.length)
    (hbuf : 0 ≤ buf_pos ∧ buf_pos ≤ buf.length)
    (hint : (INT_MIN ≤ bytes_read ∧ bytes_read ≤ INT_MAX) ∧
      (INT_MIN ≤ buf_pos ∧ buf_pos ≤ INT_MAX) ∧ (INT_MIN ≤ cur_pos ∧ cur_pos ≤ INT_MAX)) :
    ∀ fuel : Nat,
      read_loop s inum size file_length fuel buf bytes_read buf_pos cur_pos = .timeout := by
  have hz : c_int (Int.tmod cur_pos 32 - Int.tmod cur_pos 32) = .ok 0 := by
    simp [c_int, INT_MIN, INT_MAX]
  have hz1 : c_int (c_abs 0) = .ok 0 := by simp [c_int, c_abs, INT_MIN, INT_MAX]
  have h1 : c_int (bytes_read + 0) = .ok bytes_read := by simp [c_int, hint.1]
  have h2 : c_int (buf_pos + 0) = .ok buf_pos := by simp [c_int, hint.2.1]
  have h3 : c_int (cur_pos + 0) = .ok cur_pos := by simp [c_int, hint.2.2]
  have hok : ¬ (Int.tmod cur_pos 32 < 0 ∨ Int.tmod cur_pos 32 + 0 > blk.length ∨ buf_pos < 0
      ∨ buf_pos + 0 > buf.length) := by omega
  intro fuel
  induction fuel with
  | zero => simp only [read_loop, if_pos hg]
  | succ fuel ih =>
    simp only [read_loop, if_pos hg, Res.bind_def, hino, hb, hbt, hblk, Res.ok_bind, hz, hz1,
      if_neg hok, h1, h2, h3]
    simpa using ih

theorem AppendOnly_refl (s : FS) : AppendOnly s s := by
  intro b bt h
  exact ⟨⟨bt, h, le_refl _⟩, fun _ _ => rfl⟩

theorem AppendOnly_trans {s s1 s2 : FS} (h1 : AppendOnly s s1) (h2 : AppendOnly s1 s2) :
    AppendOnly s s2 := by
  intro b bt h
  obtain ⟨⟨bt1, hbt1, hle1⟩, hb1⟩ := h1 b bt h
  obtain ⟨⟨bt2, hbt2, hle2⟩, hb2⟩ := h2 b bt1 hbt1
  refine ⟨⟨bt2, hbt2, le_trans hle1 hle2⟩, ?_⟩
  intro j hj
  rw [hb2 j (lt_of_lt_of_le hj hle1), hb1 j hj]

theorem AppendOnly_of_eq {s s1 : FS} (hd : s1.data_blocks = s.data_blocks)
    (hb : s1.bytes_track = s.bytes_track) : AppendOnly s s1 := by
  intro b bt h
  refine ⟨⟨bt, by rw [hb]; exact h, le_refl _⟩, ?_⟩
  intro j _
  simp only [byte_at, hd]

theorem memcpy_to_block_append {s s1 : FS} {b off : Int} {buf : List Nat} {bp n : Int}
    (h : memcpy_to_block s b off buf bp n = .ok s1) (hoff : rd s.bytes_track b = .ok off) :
    AppendOnly s s1 := by
  unfold memcpy_to_block at h
  simp only [Res.bind_def, Res.pure_def, Res.bind_eq_ok] at h
  obtain ⟨blk, hblk, h⟩ := h
  split at h
  · simp at h
  · rename_i hchk
    simp only [Res.bind_eq_ok, wr_eq_ok, Res.ok.injEq] at h
    obtain ⟨dbs, ⟨hb, rfl⟩, rfl⟩ := h
    intro c bt hc
    refine ⟨⟨bt, hc, le_refl _⟩, ?_⟩
    intro j hj
    simp only [byte_at, Res.bind_def]
    by_cases hcb : c = b
    · subst hcb
      rw [hc] at hoff
      simp only [Res.ok.injEq] at hoff
      subst hoff
      rw [rd_set_self hblk, hblk]
      simp only [Res.ok_bind]
      have hjo : j < bt.toNat := by omega
      have key : (List.take bt.toNat blk ++ List.take n.toNat (List.drop bp.toNat buf) ++
          List.drop (bt.toNat + n.toNat) blk)[j]? = blk[j]? := by
        by_cases hn : n ≤ 0
        · have hz : n.toNat = 0 := by omega
          simp [hz]
        · have hjb : j < blk.length := by omega
          rw [List.append_assoc, List.getElem?_append_left (by simp; omega),
            List.getElem?_take_of_lt hjo]
      unfold rd
      simp only [Int.toNat_ofNat, key]
    · rw [rd_set_ne hblk hcb]

theorem add_bytes_track_append {s s1 : FS} {b n : Int}
    (h : add_bytes_track s b n = .ok s1) (hn : 0 ≤ n) : AppendOnly s s1 := by
  unfold add_bytes_track at h
  simp only [Res.bind_def, Res.pure_def, Res.bind_eq_ok, wr_eq_ok, c_int_eq_ok,
    Res.ok.injEq] at h
  obtain ⟨bt0, hbt0, v, ⟨-, rfl⟩, t, ⟨-, rfl⟩, rfl⟩ := h
  intro c bt hc
  refine ⟨?_, ?_⟩
  · by_cases hcb : c = b
    · subst hcb
      rw [hc] at hbt0
      simp only [Res.ok.injEq] at hbt0
      subst hbt0
      exact ⟨bt + n, rd_set_self hc, by omega⟩
    · exact ⟨bt, by rw [rd_set_ne hbt0 hcb]; exact hc, le_refl _⟩
  · intro j _
    rfl

theorem pointer_loop_overflow_append {k : Consts} {inum cb : Int} {n : Nat} {i : Int}
    {s s1 : FS} (h : pointer_loop_overflow k inum cb n i s = .ok s1) : AppendOnly s s1 := by
  obtain ⟨bm, a1, rfl, -⟩ := pointer_loop_overflow_ok _ _ _ _ _ _ _ h
  exact AppendOnly_of_eq rfl rfl

theorem pointer_loop_fit_append {k : Consts} {inum cb : Int} {n : Nat} {i : Int}
    {s s1 : FS} (h : pointer_loop_fit k inum cb n i s = .ok s1) : AppendOnly s s1 := by
  obtain ⟨bm, a1, rfl, -⟩ := pointer_loop_fit_ok _ _ _ _ _ _ _ h
  exact AppendOnly_of_eq rfl rfl

theorem add_length_append {s s1 : FS} {inum n : Int} (h : add_length s inum n = .ok s1) :
    AppendOnly s s1 := by
  obtain ⟨ino, -, rfl⟩ := add_length_ok h
  exact AppendOnly_of_eq rfl rfl

theorem add_position_append {s s1 : FS} {fd n : Int} (h : add_position s fd n = .ok s1) :
    AppendOnly s s1 := by
  obtain ⟨e, -, rfl⟩ := add_position_ok h
  exact AppendOnly_of_eq rfl rfl

theorem write_body_append {k : Consts} {fd inum : Int} {buf : List Nat} {size : Int} {s : FS}
    {bp cb : Int} {r : FS × Int × Int × Int}
    (h : write_body k fd inum buf size s bp cb = .ok r) (hbp : bp < size) :
    AppendOnly s r.1 := by
  have hbytes : 1 ≤ (if size - bp > BLOCK_SIZE then BLOCK_SIZE else size - bp) := by
    unfold BLOCK_SIZE
    split <;> omega
  unfold write_body at h
  simp only [Res.bind_def, Res.pure_def, Res.bind_eq_ok, c_int_eq_ok] at h
  obtain ⟨rest, ⟨-, rfl⟩, h⟩ := h
  generalize (if size - bp > BLOCK_SIZE then BLOCK_SIZE else size - bp) = bytes at h hbytes
  obtain ⟨bt, hbt, total, ⟨-, rfl⟩, h⟩ := h
  by_cases hov : bytes + bt > 32
  · rw [if_pos hov] at h
    simp only [Res.bind_eq_ok, c_int_eq_ok, Res.ok.injEq] at h
    obtain ⟨room, ⟨-, rfl⟩, btw, ⟨-, rfl⟩, diff, ⟨-, rfl⟩, blo, ⟨-, rfl⟩, s1, h1, s2, h2,
      bp1, ⟨-, rfl⟩, s3, h3, bt1, hbt1, s4, h4, bp2, ⟨-, rfl⟩, s5, h5, s6, h6, s7, h7, rfl⟩ := h
    exact AppendOnly_trans (memcpy_to_block_append h1 hbt)
      (AppendOnly_trans (add_bytes_track_append h2 (c_abs_nonneg _))
      (AppendOnly_trans (pointer_loop_overflow_append h3)
      (AppendOnly_trans (memcpy_to_block_append h4 hbt1)
      (AppendOnly_trans (add_length_append h5)
      (AppendOnly_trans (add_bytes_track_append h6 (c_abs_nonneg _))
        (add_position_append h7))))))
  · rw [if_neg hov] at h
    simp only [Res.bind_eq_ok, c_int_eq_ok, Res.ok.injEq] at h
    obtain ⟨s1, h1, s2, h2, bp1, ⟨-, rfl⟩, s3, h3, s4, h4, s5, h5, rfl⟩ := h
    exact AppendOnly_trans (memcpy_to_block_append h1 hbt)
      (AppendOnly_trans (add_bytes_track_append h2 (by omega))
      (AppendOnly_trans (add_length_append h3)
      (AppendOnly_trans (pointer_loop_fit_append h4) (add_position_append h5))))

theorem write_loop_append (k : Consts) (fd inum : Int) (buf : List Nat) (size : Int) :
    ∀ (fuel : Nat) (s : FS) (bp cb bw : Int) (r : Int × FS),
      write_loop k fd inum buf size fuel s bp cb bw = .ok r → AppendOnly s r.2 := by
  intro fuel
  induction fuel with
  | zero =>
    intro s bp cb bw r h
    unfold write_loop at h
    split at h
    · simp at h
    · simp only [Res.ok.injEq] at h
      rw [← h]
      exact AppendOnly_refl s
  | succ fuel ih =>
    intro s bp cb bw r h
    unfold write_loop at h
    split at h
    · rename_i hg
      simp only [Res.bind_def, Res.bind_eq_ok] at h
      obtain ⟨r1, hr1, bw1, -, h⟩ := h
      exact AppendOnly_trans (write_body_append hr1 hg.1) (ih _ _ _ _ _ h)
    · simp only [Res.ok.injEq] at h
      rw [← h]
      exact AppendOnly_refl s

theorem RSFS_write_append {k : Consts} {s : FS} {fd : Int} {buf : List Nat} {size : Int}
    {r : Int × FS} (h : RSFS_write k s fd buf size = .ok r) : AppendOnly s r.2 := by
  unfold RSFS_write at h
  split at h
  · simp only [Res.ok.injEq] at h
    rw [← h]
    exact AppendOnly_refl s
  · simp only [Res.bind_def, Res.pure_def, Res.bind_eq_ok, Res.ok.injEq] at h
    obtain ⟨s0, hs0, e, he, d, hd, cb, hcb, r1, hr1, s2, hs2, rfl⟩ := h
    obtain ⟨-, rfl⟩ := lock_entry_ok hs0
    obtain rfl := unlock_entry_ok hs2
    have h1 : AppendOnly s { s with entry_mutex := s.entry_mutex.set fd.toNat true } :=
      AppendOnly_of_eq rfl rfl
    have h2 := write_loop_append _ _ _ _ _ _ _ _ _ _ _ hr1
    have h3 : AppendOnly r1.2 { r1.2 with entry_mutex := r1.2.entry_mutex.set fd.toNat false } :=
      AppendOnly_of_eq rfl rfl
    exact AppendOnly_trans h1 (AppendOnly_trans h2 h3)

@[simp] theorem set_access_flag_entry_mutex (s : FS) (fd a : Int) :
    (set_access_flag s fd a).entry_mutex = s.entry_mutex := rfl

theorem lock_entry_flag (s : FS) (fd a : Int) :
    lock_entry (set_access_flag s fd a) fd
      = (lock_entry s fd).bind (fun s1 => .ok (set_access_flag s1 fd a)) := by
  simp only [lock_entry, Res.bind_def, Res.pure_def, set_access_flag_entry_mutex,
    Res.bind_assoc, Res.ok_bind, if_bind, Res.blocked_bind]
  rfl

theorem unlock_entry_flag (s : FS) (fd a : Int) :
    unlock_entry (set_access_flag s fd a) fd
      = (unlock_entry s fd).bind (fun s1 => .ok (set_access_flag s1 fd a)) := by
  simp only [unlock_entry, Res.bind_def, Res.pure_def, set_access_flag_entry_mutex,
    Res.bind_assoc, Res.ok_bind]
  rfl

/-- With the entry mutex of `fd` free, a seek with RSFS_SEEK_SET to an `offset` in
the range of `int`, and a seek with RSFS_SEEK_CUR whose target `e.position + offset`
is in the range of `int`, return the target and store it as the position; no bound
by the file length is involved, the mutex is free again afterwards, and only the
open-file table changes. -/
theorem RSFS_fseek_set_cur (k : Consts) (s : FS) (fd offset : Int)
    (e : open_file_entry) (d : dir_entry)
    (hfd : 0 ≤ fd ∧ fd ≤ 8)
    (he : rd s.open_file_table fd = .ok e) (hd : deref s e.dir_entry = .ok d)
    (hm : rd s.entry_mutex fd = .ok false)
    (hset : 0 ≤ k.RSFS_SEEK_SET ∧ k.RSFS_SEEK_SET ≤ 2)
    (hcur : 0 ≤ k.RSFS_SEEK_CUR ∧ k.RSFS_SEEK_CUR ≤ 2 ∧ k.RSFS_SEEK_CUR ≠ k.RSFS_SEEK_SET) :
    (INT_MIN ≤ offset ∧ offset ≤ INT_MAX →
      RSFS_fseek k s fd offset k.RSFS_SEEK_SET = .ok (offset,
        { s with open_file_table :=
            s.open_file_table.set fd.toNat { e with position := offset } })) ∧
    (INT_MIN ≤ e.position + offset ∧ e.position + offset ≤ INT_MAX →
      RSFS_fseek k s fd offset k.RSFS_SEEK_CUR = .ok (e.position + offset,
        { s with open_file_table :=
            s.open_file_table.set fd.toNat { e with position := e.position + offset } })) := by
  have hl := rd_bounds he
  have hlm := rd_bounds hm
  have hbad1 : ¬ ((fd < 0 ∨ fd > 8) ∨ (k.RSFS_SEEK_SET < 0 ∨ k.RSFS_SEEK_SET > 2)) := by omega
  have hbad2 : ¬ ((fd < 0 ∨ fd > 8) ∨ (k.RSFS_SEEK_CUR < 0 ∨ k.RSFS_SEEK_CUR > 2)) := by omega
  have hdr : ∀ m : List Bool, deref { s with entry_mutex := m } e.dir_entry = .ok d :=
    fun m => hd
  constructor
  · intro hr
    have hc : c_int offset = .ok offset := c_int_eq_ok.2 ⟨hr, rfl⟩
    simp only [RSFS_fseek, if_neg hbad1, lock_entry, unlock_entry, Res.bind_def, Res.pure_def,
      hm, he, hdr, hc, Res.ok_bind, if_true, wr, hl, hlm, and_self, Bool.false_eq_true,
      if_false, List.length_set, mutex_restore hm]
  · intro hr
    have hc : c_int (e.position + offset) = .ok (e.position + offset) := c_int_eq_ok.2 ⟨hr, rfl⟩
    simp only [RSFS_fseek, if_neg hbad2, lock_entry, unlock_entry, Res.bind_def, Res.pure_def,
      hm, he, hdr, hc, Res.ok_bind, if_neg hcur.2.2, if_true, wr, hl, hlm, and_self,
      Bool.false_eq_true, if_false, List.length_set, mutex_restore hm]

/-- With the entry mutex of `fd` free and the cursor at or past the length,
`RSFS_read` returns 0 and leaves the buffer as it was; the state afterwards is the
one before with the entry mutex of `fd` held. -/
theorem RSFS_read_at_end (s : FS) (fd : Int) (buf : List Nat) (size : Int)
    (e : open_file_entry) (d : dir_entry) (ino : inode)
    (hfd : 0 ≤ fd ∧ fd ≤ 8) (hsize : 0 ≤ size)
    (he : rd s.open_file_table fd = .ok e) (hd : deref s e.dir_entry = .ok d)
    (hino : rd s.inodes d.inode_number = .ok ino)
    (hm : rd s.entry_mutex fd = .ok false)
    (hpos : ino.length ≤ e.position) :
    RSFS_read s fd buf size
      = .ok (0, buf, { s with entry_mutex := s.entry_mutex.set fd.toNat true }) := by
  have hbad : ¬ ((fd < 0 ∨ fd > 8) ∨ size < 0) := by omega
  have hge : e.position ≥ ino.length := hpos
  have hlm := rd_bounds hm
  have hdr : ∀ m : List Bool, deref { s with entry_mutex := m } e.dir_entry = .ok d :=
    fun m => hd
  simp only [RSFS_read, if_neg hbad, lock_entry, Res.bind_def, Res.pure_def, hm, he, hdr, hino,
    Res.ok_bind, if_pos hge, wr, hlm, and_self, if_true, Bool.false_eq_true, if_false]

/-- While the entry mutex of `fd` is held, a call of `RSFS_read`, `RSFS_write` or
`RSFS_fseek` through `fd` that passes the sanity test does not return. -/
theorem held_mutex_blocks (k : Consts) (s : FS) (fd : Int) (buf : List Nat)
    (size offset whence : Int)
    (hfd : 0 ≤ fd ∧ fd ≤ 8) (hsize : 0 ≤ size) (hw : 0 ≤ whence ∧ whence ≤ 2)
    (hm : rd s.entry_mutex fd = .ok true) :
    RSFS_read s fd buf size = .blocked ∧ RSFS_write k s fd buf size = .blocked ∧
      RSFS_fseek k s fd offset whence = .blocked := by
  have hbad : ¬ ((fd < 0 ∨ fd > 8) ∨ size < 0) := by omega
  have hbad2 : ¬ ((fd < 0 ∨ fd > 8) ∨ (whence < 0 ∨ whence > 2)) := by omega
  refine ⟨?_, ?_, ?_⟩
  · simp only [RSFS_read, if_neg hbad, lock_entry, Res.bind_def, hm, Res.ok_bind, if_true,
      Res.blocked_bind]
  · simp only [RSFS_write, if_neg hbad, lock_entry, Res.bind_def, hm, Res.ok_bind, if_true,
      Res.blocked_bind]
  · simp only [RSFS_fseek, if_neg hbad2, lock_entry, Res.bind_def, hm, Res.ok_bind, if_true,
      Res.blocked_bind]

/-! ## The claims -/

section concrete_runs

set_option synthInstance.maxSize 4000
set_option synthInstance.maxHeartbeats 400000
set_option maxRecDepth 100000

/-- C1, at N = 32: on a fresh file system `create`, `open` read-write, a write of
exactly one block (32 bytes) and a seek to 0 succeed, but the write stored no block
pointer in the inode (all eight stay -1), so the read of 32 bytes indexes
`bytes_track[-1]`: undefined behaviour instead of the 32 written bytes. -/
theorem C1_round_trip_one_block_faults :
    returns Consts.usual (fresh Consts.usual)
        [.create "a", .open_ "a" 1, .write 0 (List.range 32) 32, .fseek 0 0 0,
         .read 0 (List.replicate 32 0) 32]
      = [.ok 0, .ok 0, .ok 32, .ok 0, .fault]
    ∧ (run Consts.usual (fresh Consts.usual)
        [.create "a", .open_ "a" 1, .write 0 (List.range 32) 32]).bind
          (fun s => fd_blocks s 0) = .ok (List.replicate 8 (-1)) := by
  decide

/-- C2, on a 5-byte file with the cursor at 0: a read of size 2 into an 8-byte buffer
returns 5, copies all five bytes and leaves the position at 5, where
min(size, L - pos) is 2. -/
theorem C2_read_returns_more_than_size :
    (run Consts.usual (fresh Consts.usual)
        [.create "a", .open_ "a" 1, .write 0 [1, 2, 3, 4, 5] 5, .fseek 0 0 0]).bind
      (fun s => (RSFS_read s 0 (List.replicate 8 0) 2).bind
        (fun r => .ok (fd_position s 0, fd_length s 0, r.1, r.2.1, fd_position r.2.2 0)))
      = .ok (.ok 0, .ok 5, 5, [1, 2, 3, 4, 5, 0, 0, 0], .ok 5) := by
  decide

/-- C3, counterexample: write 5 bytes, seek to 0, write 5 bytes.  The second write
is issued with pos = 0 and L = 5 and returns 5; afterwards the length is 10, not
max(5, 0 + 5) = 5, and block 0 holds the first five bytes followed by the second
five. -/
theorem C3_overwrite_appends :
    (run Consts.usual (fresh Consts.usual)
        [.create "a", .open_ "a" 1, .write 0 [1, 2, 3, 4, 5] 5, .fseek 0 0 0]).bind
      (fun s => (RSFS_write Consts.usual s 0 [9, 9, 9, 9, 9] 5).bind
        (fun r => .ok (fd_position s 0, fd_length s 0, r.1, fd_length r.2 0,
          fd_position r.2 0, (rd r.2.data_blocks 0).bind (fun b => .ok (b.take 10)))))
      = .ok (.ok 0, .ok 5, 5, .ok 10, .ok 5, .ok [1, 2, 3, 4, 5, 9, 9, 9, 9, 9])
    ∧ (10 : Int) ≠ max 5 (0 + 5) := by
  decide

end concrete_runs

/-- C3, amended: on a descriptor with position pos on a file of length L, whenever
`RSFS_write` returns a count w ≥ 0 the length afterwards is L + w and the position
is pos + w, and the write is append-only: no counter of `bytes_track` decreases and
no byte of a block below the block's counter (the data stored so far) changes. -/
theorem C3_write_adds_count_to_length_and_position (k : Consts) (s : FS) (fd : Int)
    (buf : List Nat) (size : Int) (L pos : Int)
    (hL : fd_length s fd = .ok L) (hpos : fd_position s fd = .ok pos) :
    ∀ (w : Int) (s1 : FS), RSFS_write k s fd buf size = .ok (w, s1) → 0 ≤ w →
      fd_length s1 fd = .ok (L + w) ∧ fd_position s1 fd = .ok (pos + w) ∧
        AppendOnly s s1 := by
  intro w s1 h hw
  have happ : AppendOnly s s1 := RSFS_write_append h
  rcases RSFS_write_ok h with ⟨-, hm, -⟩ | ⟨-, e, d, he, hd, -, hcase⟩
  · omega
  · rcases hcase with ⟨rfl, rfl⟩ | ⟨dbs, bm, bt, a1, t1, hs1, -, hI, hP⟩
    · simp [hL, hpos, happ]
    · obtain ⟨ino, blk, hino, rfl, -, -⟩ := hI
      obtain ⟨e1, he1, rfl⟩ := hP
      rw [he] at he1
      simp only [Res.ok.injEq] at he1
      subst he1
      rw [fd_length_eq he hd hino] at hL
      rw [fd_position_eq he] at hpos
      simp only [Res.ok.injEq] at hL hpos
      have hroot : s1.root_dir = s.root_dir := by rw [hs1]
      have htab : rd s1.open_file_table fd = .ok { e with position := e.position + w } := by
        rw [hs1]
        exact rd_set_self he
      have hino1 : rd s1.inodes d.inode_number = .ok ⟨ino.length + w, blk⟩ := by
        rw [hs1]
        exact rd_set_self hino
      have hd1 : deref s1 e.dir_entry = .ok d := (deref_congr s s1 hroot _).trans hd
      refine ⟨?_, ?_, happ⟩
      · rw [fd_length_eq htab hd1 hino1, hL]
      · rw [fd_position_eq htab, hpos]

section concrete_runs

set_option synthInstance.maxSize 4000
set_option synthInstance.maxHeartbeats 400000
set_option maxRecDepth 100000

/-- C3, amended, on the sample state (length 5, position 0, block 0 with counter 5):
the write of 5 bytes returns 5 and leaves length 5 + 5 and position 0 + 5; the
counter of block 0 is 10 afterwards and its first five bytes are as before. -/
theorem C3_write_adds_count_witness :
    fd_length sample 0 = .ok 5 ∧ fd_position sample 0 = .ok 0 ∧
    rd sample.bytes_track 0 = .ok 5 ∧
    RSFS_write Consts.usual sample 0 [9, 9, 9, 9, 9] 5 = .ok (5, sample_written) ∧
    fd_length sample_written 0 = .ok (5 + 5) ∧
    fd_position sample_written 0 = .ok (0 + 5) ∧
    rd sample_written.bytes_track 0 = .ok 10 ∧
    (∀ j : Nat, (j : Int) < 5 → byte_at sample_written 0 j = byte_at sample 0 j) :=
  have hL : fd_length sample 0 = .ok 5 := by decide
  have hpos : fd_position sample 0 = .ok 0 := by decide
  have hbt : rd sample.bytes_track 0 = .ok 5 := by decide
  have hw : RSFS_write Consts.usual sample 0 [9, 9, 9, 9, 9] 5 = .ok (5, sample_written) := by
    decide
  have h := C3_write_adds_count_to_length_and_position Consts.usual sample 0
    [9, 9, 9, 9, 9] 5 5 0 hL hpos 5 sample_written hw (by decide)
  ⟨hL, hpos, hbt, hw, h.1, h.2.1, by decide, (h.2.2 0 5 hbt).2⟩

/-- C4, a 32-byte write issued after a 31-byte write to the same file returns 62:
the first iteration counts 32 bytes while it consumes 2 of the buffer, the second
counts the remaining 30. -/
theorem C4_write_returns_more_than_size :
    returns Consts.usual (fresh Consts.usual)
        [.create "a", .open_ "a" 1, .write 0 (List.range 31) 31,
         .write 0 (List.range 32) 32]
      = [.ok 0, .ok 0, .ok 31, .ok 62] := by
  decide

/-- C5, counterexample: a write of 5 bytes through a descriptor opened with
RSFS_RDONLY (0) returns 5, not -1, and the file has length 5 and the descriptor
position 5 afterwards. -/
theorem C5_read_only_descriptor_writes :
    (run Consts.usual (fresh Consts.usual)
        [.create "a", .open_ "a" Consts.usual.RSFS_RDONLY]).bind
      (fun s => (RSFS_write Consts.usual s 0 [1, 2, 3, 4, 5] 5).bind
        (fun r => .ok ((rd s.open_file_table 0).bind (fun e => .ok e.access_flag),
          r.1, fd_length r.2 0, fd_position r.2 0, fd_blocks r.2 0,
          (rd r.2.bytes_track 0))))
      = .ok (.ok 0, 5, .ok 5, .ok 5, .ok [0, -1, -1, -1, -1, -1, -1, -1], .ok 5) := by
  decide

end concrete_runs

/-- C5, amended: `RSFS_write` does not read the access flag.  On the state in which
descriptor `fd` carries any other access flag `a` (RSFS_RDONLY, say), the call has
the same outcome, returns the same value and makes the same changes as on `s`
itself, where the flag may be RSFS_RDWR.  The value -1 is returned for `fd` outside
0..8 and for size < 0, with the state unchanged, and in no other case: every other
returned value is ≥ 0. -/
theorem C5_write_ignores_access_flag (k : Consts) (s : FS) (fd : Int) (buf : List Nat)
    (size a : Int) :
    RSFS_write k (set_access_flag s fd a) fd buf size
      = (RSFS_write k s fd buf size).bind (fun r => .ok (r.1, set_access_flag r.2 fd a))
    ∧ ((fd < 0 ∨ fd > 8) ∨ size < 0 → RSFS_write k s fd buf size = .ok (-1, s))
    ∧ ∀ (w : Int) (s1 : FS), RSFS_write k s fd buf size = .ok (w, s1) →
        (w = -1 ∧ ((fd < 0 ∨ fd > 8) ∨ size < 0)) ∨
        (0 ≤ w ∧ ¬ ((fd < 0 ∨ fd > 8) ∨ size < 0)) := by
  refine ⟨?_, ?_, ?_⟩
  · unfold RSFS_write
    split
    · rfl
    · simp only [Res.bind_def, Res.pure_def, lock_entry_flag, unlock_entry_flag,
        set_access_flag_open_file_table, rd_flag_table, deref_flag,
        choose_block_flag, write_loop_flag, Res.bind_assoc, Res.ok_bind]
  · intro hbad
    simp only [RSFS_write, if_pos hbad]
  · intro w s1 h
    rcases RSFS_write_ok h with ⟨hbad, hw, -⟩ | ⟨hgood, e, d, -, -, -, hcase⟩
    · exact Or.inl ⟨hw, hbad⟩
    · rcases hcase with ⟨-, hw⟩ | ⟨dbs, bm, bt, a1, t1, -, hw, -, -⟩
      · exact Or.inr ⟨by omega, hgood⟩
      · exact Or.inr ⟨by omega, hgood⟩

section concrete_runs

set_option synthInstance.maxSize 4000
set_option synthInstance.maxHeartbeats 400000
set_option maxRecDepth 100000

/-- C5, amended, on the sample state: with the access flag of descriptor 0 set to
RSFS_RDONLY (0) the write of 5 bytes returns 5 and reaches the state that the write
through the read-write descriptor reaches, flag apart; the call with size -1 returns
-1. -/
theorem C5_write_ignores_access_flag_witness :
    RSFS_write Consts.usual sample 0 [9, 9, 9, 9, 9] 5 = .ok (5, sample_written) ∧
    RSFS_write Consts.usual (set_access_flag sample 0 0) 0 [9, 9, 9, 9, 9] 5
      = .ok (5, set_access_flag sample_written 0 0) ∧
    RSFS_write Consts.usual sample 0 [9, 9, 9, 9, 9] (-1) = .ok (-1, sample) ∧
    (((5 : Int) = -1 ∧ (((0 : Int) < 0 ∨ (0 : Int) > 8) ∨ (5 : Int) < 0)) ∨
      ((0 : Int) ≤ 5 ∧ ¬ (((0 : Int) < 0 ∨ (0 : Int) > 8) ∨ (5 : Int) < 0))) :=
  have hw : RSFS_write Consts.usual sample 0 [9, 9, 9, 9, 9] 5 = .ok (5, sample_written) := by
    decide
  have h := C5_write_ignores_access_flag Consts.usual sample 0 [9, 9, 9, 9, 9] 5 0
  have h1 := C5_write_ignores_access_flag Consts.usual sample 0 [9, 9, 9, 9, 9] (-1) 0
  ⟨hw, h.1.trans (by rw [hw]; rfl), h1.2.1 (by decide), h.2.2 5 sample_written hw⟩

end concrete_runs

section concrete_runs

set_option synthInstance.maxSize 4000
set_option synthInstance.maxHeartbeats 400000
set_option maxRecDepth 100000

/-- C6, two files `a` (inode 0) and `b` (inode 1), both allocated: `a` writes 31
bytes (block 0), `b` writes 1 byte (block 1), `a` writes 20 bytes.  The last write
overflows block 0 into block 1 without asking `find`, and then records block 1 in
`a`: block index 1 is in the pointer lists of both inodes. -/
theorem C6_block_in_two_inodes :
    (run Consts.usual (fresh Consts.usual)
        [.create "a", .create "b", .open_ "a" 1, .open_ "b" 1,
         .write 0 (List.range 31) 31, .write 1 [7] 1, .write 0 (List.range 20) 20]).bind
      (fun s => .ok (s.inode_bitmap.take 2, fd_inode s 0, fd_inode s 1,
        fd_blocks s 0, fd_blocks s 1))
      = .ok ([1, 1], .ok 0, .ok 1, .ok [0, 1, -1, -1, -1, -1, -1, -1],
          .ok [1, -1, -1, -1, -1, -1, -1, -1]) := by
  decide

/-- C7, block 0 holds 5 bytes of file `b` and blocks 1 to 31 are full, so no block
is usable for file `a`; the search loop then leaves `cur_bl` at its initial value 0
and a write of 5 bytes through `a` returns 5, the full size (the bytes go into block
0 of `b`, whose counter becomes 10). -/
theorem C7_exhausted_pool_full_count :
    (run Consts.usual (fresh Consts.usual)
        [.create "a", .create "b", .open_ "a" 1, .open_ "b" 1,
         .write 1 [1, 2, 3, 4, 5] 5, .write 0 (List.replicate 992 0) 992]).bind
      (fun s => (RSFS_write Consts.usual s 0 [7, 7, 7, 7, 7] 5).bind
        (fun r => .ok (s.bytes_track, fd_blocks s 1, fd_blocks s 0, fd_length s 0,
          r.1, fd_length r.2 0, rd r.2.bytes_track 0)))
      = .ok (5 :: List.replicate 31 32, .ok [0, -1, -1, -1, -1, -1, -1, -1],
          .ok (List.replicate 8 (-1)), .ok 1952, 5, .ok 1957, .ok 10) := by
  decide

/-- C8, counterexample: after nine successive 32-byte writes to one file the
inode's length is 288, above 8 x 32 = 256. -/
theorem C8_length_exceeds_capacity :
    (run Consts.usual (fresh Consts.usual)
        ([.create "a", .open_ "a" 1] ++ List.replicate 9 (.write 0 (List.range 32) 32))).bind
      (fun s => fd_length s 0) = .ok 288
    ∧ ¬ ((288 : Int) ≤ NUM_POINTER * BLOCK_SIZE) := by
  decide

end concrete_runs

/-- C8, amended: in every state reachable from `RSFS_init` every inode has exactly
NUM_POINTER = 8 direct pointers, each of them -1 or the index of a data block, and a
length that is not negative.  (So an inode addresses at most 8 x 32 = 256 bytes; the
length field itself has no such bound.) -/
theorem C8_inode_shape (k : Consts) (s : FS) (h : Reachable k s) :
    ∀ ino ∈ s.inodes, ino.block.length = NUM_POINTER ∧ 0 ≤ ino.length ∧
      ∀ p ∈ ino.block, p = -1 ∨ (0 ≤ p ∧ p < k.NUM_DBLOCKS) := by
  obtain ⟨calls, hc⟩ := h
  exact InodeInv_run k calls _ _ (InodeInv_fresh k) hc

section concrete_runs

set_option synthInstance.maxSize 4000
set_option synthInstance.maxHeartbeats 400000
set_option maxRecDepth 100000

/-- C8, amended, on the state after nine 32-byte writes to one file (length 288). -/
theorem C8_inode_shape_witness :
    Reachable Consts.usual nine_writes ∧
    ∀ ino ∈ nine_writes.inodes, ino.block.length = NUM_POINTER ∧ 0 ≤ ino.length ∧
      ∀ p ∈ ino.block, p = -1 ∨ (0 ≤ p ∧ p < Consts.usual.NUM_DBLOCKS) :=
  have hr : Reachable Consts.usual nine_writes :=
    ⟨[.create "a", .open_ "a" 1] ++ List.replicate 9 (.write 0 (List.range 32) 32), by decide⟩
  ⟨hr, C8_inode_shape Consts.usual nine_writes hr⟩

/-- C9, on a file of length 5: `RSFS_fseek(fd, 0, RSFS_SEEK_END)` returns -1 and
sets the position to -1 (`EOF + offset`), where L + offset is 5. -/
theorem C9_seek_end_uses_EOF :
    (run Consts.usual (fresh Consts.usual)
        [.create "a", .open_ "a" 1, .write 0 [1, 2, 3, 4, 5] 5]).bind
      (fun s => (RSFS_fseek Consts.usual s 0 0 Consts.usual.RSFS_SEEK_END).bind
        (fun r => .ok (fd_length s 0, r.1, fd_position r.2 0)))
      = .ok (.ok 5, -1, .ok (-1)) := by
  decide

end concrete_runs

section concrete_runs

set_option synthInstance.maxSize 4000
set_option synthInstance.maxHeartbeats 400000
set_option maxRecDepth 100000

/-- C10, on a 5-byte file with descriptor 0 at position 5: the seeks
`RSFS_fseek(0, 100, RSFS_SEEK_SET)` and `RSFS_fseek(0, -40, RSFS_SEEK_CUR)` return
100 and 60; but after an `RSFS_read` at the end of the file, which returns 0 with
the entry mutex of the descriptor still held, neither `RSFS_fseek(0, 3,
RSFS_SEEK_SET)` nor `RSFS_fseek(0, 3, RSFS_SEEK_CUR)` returns. -/
theorem C10_seek_blocks_after_read_at_end :
    returns Consts.usual (fresh Consts.usual)
        [.create "a", .open_ "a" 1, .write 0 [1, 2, 3, 4, 5] 5, .fseek 0 100 0,
         .fseek 0 (-40) 1]
      = [.ok 0, .ok 0, .ok 5, .ok 100, .ok 60]
    ∧ returns Consts.usual (fresh Consts.usual)
        [.create "a", .open_ "a" 1, .write 0 [1, 2, 3, 4, 5] 5, .read 0 [0, 0] 2,
         .fseek 0 3 0]
      = [.ok 0, .ok 0, .ok 5, .ok 0, .blocked]
    ∧ returns Consts.usual (fresh Consts.usual)
        [.create "a", .open_ "a" 1, .write 0 [1, 2, 3, 4, 5] 5, .read 0 [0, 0] 2,
         .fseek 0 3 1]
      = [.ok 0, .ok 0, .ok 5, .ok 0, .blocked]
    ∧ (run Consts.usual (fresh Consts.usual)
        [.create "a", .open_ "a" 1, .write 0 [1, 2, 3, 4, 5] 5, .read 0 [0, 0] 2]).bind
          (fun s => .ok (fd_position s 0, fd_length s 0, rd s.entry_mutex 0))
      = .ok (.ok 5, .ok 5, .ok true) := by
  decide

/-- C11, on a descriptor with position 5 (file of length 5): a seek with
RSFS_SEEK_SET and offset -3 returns -3 and sets the position to -3, and from
position 5 a seek with RSFS_SEEK_CUR and offset -9 returns -4 and sets the position
to -4; the claim says 5 is returned and the position stays 5. -/
theorem C11_negative_seek_is_performed :
    fd_position sample_eof 0 = .ok 5 ∧
    (RSFS_fseek Consts.usual sample_eof 0 (-3) Consts.usual.RSFS_SEEK_SET).bind
      (fun r => .ok (r.1, fd_position r.2 0)) = .ok (-3, .ok (-3)) ∧
    (RSFS_fseek Consts.usual sample_eof 0 (-9) Consts.usual.RSFS_SEEK_CUR).bind
      (fun r => .ok (r.1, fd_position r.2 0)) = .ok (-4, .ok (-4)) := by
  decide

/-- C12, on descriptor 0 with position 5: a seek with whence 7 returns 0, the
descriptor number, where the prior position is 5; the position stays 5. -/
theorem C12_bad_whence_returns_fd :
    fd_position sample_eof 0 = .ok 5 ∧
    (RSFS_fseek Consts.usual sample_eof 0 0 7).bind
      (fun r => .ok (r.1, fd_position r.2 0)) = .ok (0, .ok 5) := by
  decide

/-- C13, counterexample: after `create` and `open` (descriptor 0) the first
`RSFS_close(0)` returns 0 and the second `RSFS_close(0)` returns 0 as well, not
-1. -/
theorem C13_second_close_returns_zero :
    returns Consts.usual (fresh Consts.usual)
        [.create "a", .open_ "a" 1, .close 0, .close 0]
      = [.ok 0, .ok 0, .ok 0, .ok 0] := by
  decide

end concrete_runs

/-- C13, amended: for every `fd` in 0..8 that is a slot of the open-file table,
`RSFS_close` returns 0, and so does a second `RSFS_close` issued right after it. -/
theorem C13_close_returns_zero_twice (s : FS) (fd : Int) (e : open_file_entry)
    (hfd : 0 ≤ fd ∧ fd ≤ 8) (he : rd s.open_file_table fd = .ok e) :
    ∃ s1 s2, RSFS_close s fd = .ok (0, s1) ∧ RSFS_close s1 fd = .ok (0, s2) :=
  ⟨_, _, RSFS_close_ok hfd he, RSFS_close_ok hfd (rd_set_self he)⟩

section concrete_runs

set_option synthInstance.maxSize 4000
set_option synthInstance.maxHeartbeats 400000
set_option maxRecDepth 100000

/-- C13, amended, on the sample state (descriptor 0 open). -/
theorem C13_close_returns_zero_twice_witness :
    ((0 : Int) ≤ 0 ∧ (0 : Int) ≤ 8) ∧
    rd sample.open_file_table 0 = .ok ⟨1, some 0, 0, 1⟩ ∧
    ∃ s1 s2, RSFS_close sample 0 = .ok (0, s1) ∧ RSFS_close s1 0 = .ok (0, s2) :=
  have hfd : (0 : Int) ≤ 0 ∧ (0 : Int) ≤ 8 := by decide
  have he : rd sample.open_file_table 0 = .ok ⟨1, some 0, 0, 1⟩ := by decide
  ⟨hfd, he, C13_close_returns_zero_twice sample 0 ⟨1, some 0, 0, 1⟩ hfd he⟩

/-- C14, with NUM_INODES = 8: after eight files the ninth `RSFS_create("i")` returns
-2, yet the directory has gained an entry for `i` (inode number -1, nine entries for
eight allocated inodes); a second `RSFS_create("i")` then returns -1, "already
exists", and `RSFS_open("i")` returns -1. -/
theorem C14_failed_create_leaves_entry :
    returns Consts.usual (fresh Consts.usual)
        (["a", "b", "c", "d", "e", "f", "g", "h", "i"].map Call.create
          ++ [.create "i", .open_ "i" 1])
      = [.ok 0, .ok 0, .ok 0, .ok 0, .ok 0, .ok 0, .ok 0, .ok 0, .ok (-2), .ok (-1), .ok (-1)]
    ∧ (run Consts.usual (fresh Consts.usual)
        (["a", "b", "c", "d", "e", "f", "g", "h"].map Call.create)).bind
        (fun s => .ok (search_dir s "i", s.root_dir.length)) = .ok (none, 8)
    ∧ (run Consts.usual (fresh Consts.usual)
        (["a", "b", "c", "d", "e", "f", "g", "h", "i"].map Call.create)).bind
        (fun s => .ok (search_dir s "i", s.root_dir.length, s.inode_bitmap))
      = .ok (some ⟨8, "i", -1⟩, 9, [1, 1, 1, 1, 1, 1, 1, 1]) := by
  decide

/-- C15, at N = 32, N = 5 and N = 0: `create`, `open`, write of N bytes and `close`
return, but `RSFS_delete` runs `bytes_track[inodes[inode].block[i]] = 0` with an
unused pointer -1: undefined behaviour instead of 0.  At N = 32 no pointer names
block 0, whose counter is 32 when the delete starts. -/
theorem C15_delete_indexes_unused_pointer :
    returns Consts.usual (fresh Consts.usual)
        [.create "a", .open_ "a" 1, .write 0 (List.range 32) 32, .close 0, .delete "a"]
      = [.ok 0, .ok 0, .ok 32, .ok 0, .fault]
    ∧ (run Consts.usual (fresh Consts.usual)
        [.create "a", .open_ "a" 1, .write 0 (List.range 32) 32, .close 0]).bind
        (fun s => .ok (rd s.bytes_track 0, (rd s.inodes 0).bind (fun i => .ok i.block)))
      = .ok (.ok 32, .ok (List.replicate 8 (-1)))
    ∧ returns Consts.usual (fresh Consts.usual)
        [.create "a", .open_ "a" 1, .write 0 [1, 2, 3, 4, 5] 5, .close 0, .delete "a"]
      = [.ok 0, .ok 0, .ok 5, .ok 0, .fault]
    ∧ returns Consts.usual (fresh Consts.usual)
        [.create "a", .open_ "a" 1, .write 0 [] 0, .close 0, .delete "a"]
      = [.ok 0, .ok 0, .ok 0, .ok 0, .fault] := by
  decide

end concrete_runs

/-- C16: for two distinct descriptors, a call of `RSFS_write`, `RSFS_read` or
`RSFS_fseek` through `fd1` that returns leaves the slot of `fd2` in the open-file
table (position, access flag, directory-entry pointer, used mark) as it was, and
leaves the directory as it was, so the binding of `fd2` is the same. -/
theorem C16_other_descriptor_untouched (k : Consts) (s : FS) (fd1 fd2 : Int)
    (hne : fd2 ≠ fd1) :
    (∀ (buf : List Nat) (size : Int) (r : Int × FS),
      RSFS_write k s fd1 buf size = .ok r →
        rd r.2.open_file_table fd2 = rd s.open_file_table fd2 ∧ r.2.root_dir = s.root_dir) ∧
    (∀ (buf : List Nat) (size : Int) (r : Int × List Nat × FS),
      RSFS_read s fd1 buf size = .ok r →
        rd r.2.2.open_file_table fd2 = rd s.open_file_table fd2 ∧
          r.2.2.root_dir = s.root_dir) ∧
    (∀ (offset whence : Int) (r : Int × FS),
      RSFS_fseek k s fd1 offset whence = .ok r →
        rd r.2.open_file_table fd2 = rd s.open_file_table fd2 ∧ r.2.root_dir = s.root_dir) := by
  refine ⟨?_, ?_, ?_⟩
  · intro buf size r h
    have h1 : RSFS_write k s fd1 buf size = .ok (r.1, r.2) := h
    rcases RSFS_write_ok h1 with ⟨-, -, hs⟩ | ⟨-, e, d, he, -, -, hcase⟩
    · rw [hs]
      exact ⟨rfl, rfl⟩
    · rcases hcase with ⟨hs, -⟩ | ⟨dbs, bm, bt, a1, t1, hs, -, -, hP⟩
      · rw [hs]
        exact ⟨rfl, rfl⟩
      · obtain ⟨e1, he1, rfl⟩ := hP
        rw [hs]
        exact ⟨rd_set_ne he1 hne, rfl⟩
  · intro buf size r h
    obtain ⟨hroot, hs | ⟨e, v, he, hs⟩⟩ := RSFS_read_table h
    · rw [hs]
      exact ⟨rfl, hroot⟩
    · rw [hs]
      exact ⟨rd_set_ne he hne, hroot⟩
  · intro offset whence r h
    obtain ⟨hroot, hs | ⟨e, v, he, hs⟩⟩ := RSFS_fseek_table h
    · rw [hs]
      exact ⟨rfl, hroot⟩
    · rw [hs]
      exact ⟨rd_set_ne he hne, hroot⟩

section concrete_runs

set_option synthInstance.maxSize 4000
set_option synthInstance.maxHeartbeats 400000
set_option maxRecDepth 100000

/-- C16, on the state with two descriptors, for calls through descriptor 1 (which
return 2, 5 and 3) and the slot of descriptor 0. -/
theorem C16_other_descriptor_untouched_witness :
    (0 : Int) ≠ 1 ∧
    (RSFS_write Consts.usual two_open 1 [9, 9] 2).bind (fun r => .ok r.1) = .ok 2 ∧
    (RSFS_read two_open 1 (List.replicate 8 0) 5).bind (fun r => .ok r.1) = .ok 5 ∧
    (RSFS_fseek Consts.usual two_open 1 3 0).bind (fun r => .ok r.1) = .ok 3 ∧
    (∀ (buf : List Nat) (size : Int) (r : Int × FS),
      RSFS_write Consts.usual two_open 1 buf size = .ok r →
        rd r.2.open_file_table 0 = rd two_open.open_file_table 0 ∧
          r.2.root_dir = two_open.root_dir) ∧
    (∀ (buf : List Nat) (size : Int) (r : Int × List Nat × FS),
      RSFS_read two_open 1 buf size = .ok r →
        rd r.2.2.open_file_table 0 = rd two_open.open_file_table 0 ∧
          r.2.2.root_dir = two_open.root_dir) ∧
    (∀ (offset whence : Int) (r : Int × FS),
      RSFS_fseek Consts.usual two_open 1 offset whence = .ok r →
        rd r.2.open_file_table 0 = rd two_open.open_file_table 0 ∧
          r.2.root_dir = two_open.root_dir) :=
  have hne : (0 : Int) ≠ 1 := by decide
  have h := C16_other_descriptor_untouched Consts.usual two_open 1 0 hne
  ⟨hne, by decide, by decide, by decide, h.1, h.2.1, h.2.2⟩

end concrete_runs

section concrete_runs

set_option synthInstance.maxSize 4000
set_option synthInstance.maxHeartbeats 400000
set_option maxRecDepth 100000

/-- C17, on a 5-byte file with descriptor 0 at position 5 (the state after
`create`, `open` and a write of 5 bytes): `RSFS_read(0, buf, 2)` returns 0, leaves
the buffer and the position as they were and leaves the entry mutex of the
descriptor held; the second `RSFS_read(0, buf, 2)`, again with the cursor at the
length, does not return. -/
theorem C17_second_read_at_end_blocks :
    returns Consts.usual (fresh Consts.usual)
        [.create "a", .open_ "a" 1, .write 0 [1, 2, 3, 4, 5] 5, .read 0 [7, 7] 2,
         .read 0 [7, 7] 2]
      = [.ok 0, .ok 0, .ok 5, .ok 0, .blocked]
    ∧ (fd_position sample_eof 0 = .ok 5 ∧ fd_length sample_eof 0 = .ok 5 ∧
        rd sample_eof.entry_mutex 0 = .ok false)
    ∧ (RSFS_read sample_eof 0 [7, 7] 2).bind
          (fun r => .ok (r.1, r.2.1, fd_position r.2.2 0, fd_length r.2.2 0,
            rd r.2.2.entry_mutex 0, RSFS_read r.2.2 0 [7, 7] 2))
      = .ok (0, [7, 7], .ok 5, .ok 5, .ok true, .blocked) := by
  decide

/-- C18, file `a` has written 31 bytes (block 0), file `b` 30 bytes (block 1); a
write of 20 bytes through `a` puts 1 byte in block 0 and then asks `memcpy` to put
abs(20 - 31) = 11 bytes at offset 30 of block 1, up to offset 41 of a 32-byte block:
the copy leaves the block (undefined behaviour; the counter of block 1 would be
41). -/
theorem C18_copy_leaves_block :
    returns Consts.usual (fresh Consts.usual)
        [.create "a", .create "b", .open_ "a" 1, .open_ "b" 1,
         .write 0 (List.range 31) 31, .write 1 (List.range 30) 30,
         .write 0 (List.range 20) 20]
      = [.ok 0, .ok 0, .ok 0, .ok 1, .ok 31, .ok 30, .fault]
    ∧ (run Consts.usual (fresh Consts.usual)
        [.create "a", .create "b", .open_ "a" 1, .open_ "b" 1,
         .write 0 (List.range 31) 31, .write 1 (List.range 30) 30]).bind
        (fun s => .ok (rd s.bytes_track 0, rd s.bytes_track 1,
          (rd s.data_blocks 1).bind (fun b => .ok b.length)))
      = .ok (.ok 31, .ok 30, .ok 32)
    ∧ 30 + c_abs (20 - 31) = 41 := by
  decide

/-- C19, file `a` has written 31 bytes (block 0) and file `b` 1 byte (block 1, in the
pointer list of `b`); a write of 20 bytes through `a` changes block 1: its counter
goes from 1 to 20 and bytes 1 to 19 of it are overwritten.  The length and the
pointer list of `b` stay as they were. -/
theorem C19_write_changes_other_files_block :
    (run Consts.usual (fresh Consts.usual)
        [.create "a", .create "b", .open_ "a" 1, .open_ "b" 1,
         .write 0 (List.range 31) 31, .write 1 [7] 1]).bind
      (fun s => (RSFS_write Consts.usual s 0 (List.replicate 20 9) 20).bind
        (fun r => .ok (fd_blocks s 1, rd s.bytes_track 1,
          (rd s.data_blocks 1).bind (fun b => .ok (b.take 4)),
          fd_blocks r.2 1, fd_length r.2 1, rd r.2.bytes_track 1,
          (rd r.2.data_blocks 1).bind (fun b => .ok (b.take 4)))))
      = .ok (.ok [1, -1, -1, -1, -1, -1, -1, -1], .ok 1, .ok [7, 0, 0, 0],
          .ok [1, -1, -1, -1, -1, -1, -1, -1], .ok 1, .ok 20, .ok [7, 9, 9, 9]) := by
  decide

/-- C20, in the state reached by `create`, `open`, writes of 31 and of 20 bytes and a
seek to 51 (length 59, cursor at offset 19 of block 1, whose counter is 19): the
iteration of the copy loop of `RSFS_read` copies abs(19 - 19) = 0 bytes, so the loop
uses up every budget of iterations and `RSFS_read(fd, buf, 1)` does not return. -/
theorem C20_read_loop_does_not_end :
    run Consts.usual (fresh Consts.usual)
        [.create "a", .open_ "a" 1, .write 0 (List.range 31) 31,
         .write 0 (List.range 20) 20, .fseek 0 51 0] = .ok stuck_state
    ∧ (fd_position stuck_state 0 = .ok 51 ∧ fd_length stuck_state 0 = .ok 59 ∧
        rd stuck_state.bytes_track 1 = .ok 19)
    ∧ (∀ fuel : Nat,
        read_loop stuck_state 0 1 59 fuel [0, 0, 0, 0, 0, 0, 0, 0] 0 0 51 = .timeout)
    ∧ RSFS_read stuck_state 0 [0, 0, 0, 0, 0, 0, 0, 0] 1 = .timeout :=
  ⟨by decide, by decide,
   read_loop_stuck stuck_state 0 1 59 [0, 0, 0, 0, 0, 0, 0, 0] 0 0 51
     ⟨59, [0, 1, -1, -1, -1, -1, -1, -1]⟩ 1 ((rd stuck_state.data_blocks 1).getD [])
     (by decide) (by decide) (by decide) (by decide) (by decide) (by decide) (by decide)
     (by decide),
   by decide⟩

end concrete_runs

end RSFS
